import Mathlib

/-!
# Verification development for `github.com/ucarion/redact`

A shallow embedding of `redact.go`.  The package has two functions, the exported
`Redact` and the recursive walk `redact`, both written against Go's `reflect`
package.  The embedding therefore has two layers:

* the part of `reflect` that the walk uses: types and kinds, values, the
  addressable / read-only flags of a `reflect.Value`, `Zero`, `Set`,
  `FieldByName`, `MapIndex`, `SetMapIndex`, `Index`, `Elem`;
* the two functions of the package, branch by branch.

Go values are modelled as finite trees: a pointer owns its pointee, a slice owns its
elements and a map owns its entries, so no two positions of a value share storage.
A mutation made through a pointer, a slice element or a map is visible in the tree
that the walk returns.  A panic is modelled as a result that carries the panic value
together with the state the panic leaves behind.

Scope of the type universe: `bool`, `int`, `string`, channels, `interface{}`,
structs without embedded fields, maps with `string` keys, slices, arrays, pointers.
Struct fields carry the exported bit of their name, because `reflect.Value.Set` and
`reflect.Value.SetMapIndex` refuse values reached through a field that is not exported.
-/

namespace GoRedact

/-- The `reflect.Kind` of a value; `invalid` is the kind of the zero `reflect.Value`. -/
inductive Kind where
  | invalid | bool | int | string | chan | interface | struct | map | slice | array | ptr
  deriving DecidableEq

/-- Go types.  A struct field is described by its name, whether the name is exported,
and its type; a map type by its element type (keys are strings). -/
inductive Ty where
  | bool
  | int
  | string
  | chan (elem : Ty)
  | iface
  | struct (fields : List (String × Bool × Ty))
  | map (elem : Ty)
  | slice (elem : Ty)
  | array (len : Nat) (elem : Ty)
  | ptr (elem : Ty)

/-- One field of a struct value: `exported` is `reflect.StructField.IsExported`. -/
structure StructField (α : Type) where
  name : String
  exported : Bool
  val : α

/-- Go values, each carrying what is needed to recover its static type.
`none` stands for nil (nil channel, nil interface, nil map, nil slice, nil pointer).
A value is a tree: it stands for a Go value without aliasing, in which no two positions
hold the same pointer, slices do not share a backing array and no map is held twice.
Statements about what a call leaves unchanged are statements about such values. -/
inductive Val where
  | bool (b : Bool)
  | int (i : Int)
  | string (s : String)
  | chan (elem : Ty) (id : Option Nat)
  | iface (dyn : Option Val)
  | struct (fields : List (StructField Val))
  | map (elem : Ty) (entries : Option (List (String × Val)))
  | slice (elem : Ty) (elems : Option (List Val))
  | array (elem : Ty) (elems : List Val)
  | ptr (elem : Ty) (pointee : Option Val)

/-- The two flag bits of a `reflect.Value` that decide whether it can be set:
`addr` is `flagAddr` (the value is addressable), `ro` is `flagRO` (the value was
obtained through an unexported struct field). -/
structure Flag where
  addr : Bool
  ro : Bool

/-- The panics that a call of `Redact` raises on the values of the model.
* `valueError m k`: the `*reflect.ValueError` of method `m` called on a value of kind `k`
  (`reflect.Value.Type` on the zero Value, `reflect.Value.Elem` on a non-pointer);
* `notAssignable m`: `flag.mustBeAssignable` in method `m`: the value was obtained using
  an unexported field or is not addressable; the panic has a message for each of the two
  reasons, and this value stands for both (`mustBeAssignable` tells them apart);
* `notExported m`: `flag.mustBeExported` in method `m`;
* `nilMapAssign`: the runtime panic "assignment to entry in nil map";
* `unsupportedType t`: the panic of `redact` itself, whose message names the type `t`.

The maps of the model have keys of type `string`.  On a map with another key type
`MapIndex` and `SetMapIndex` convert the segment to the key type and panic when a string
cannot be assigned to it; such a map is not a value of the model and that panic has no
value here, so this type is no list of every panic of the Go function. -/
inductive Panic where
  | valueError (method : String) (kind : Kind)
  | notAssignable (method : String)
  | notExported (method : String)
  | nilMapAssign
  | unsupportedType (t : Ty)

/-- Outcome of a mutating call: it returned (`ok`) or it panicked; in both cases
`state` is the value that the call leaves behind. -/
inductive Res (α : Type) where
  | ok (state : α)
  | panicked (e : Panic) (state : α)

/-- The state a call leaves behind. -/
def Res.state {α : Type} : Res α → α
  | .ok s => s
  | .panicked _ s => s

/-- Whether the call returned without a panic. -/
def Res.isOk {α : Type} : Res α → Bool
  | .ok _ => true
  | .panicked _ _ => false

/-- Put the state left behind by a call on a component back into its container. -/
def Res.map {α β : Type} (f : α → β) : Res α → Res β
  | .ok s => .ok (f s)
  | .panicked e s => .panicked e (f s)

/-- The `reflect.Type.Kind` of a type. -/
def Ty.kind : Ty → Kind
  | .bool => .bool
  | .int => .int
  | .string => .string
  | .chan _ => .chan
  | .iface => .interface
  | .struct _ => .struct
  | .map _ => .map
  | .slice _ => .slice
  | .array _ _ => .array
  | .ptr _ => .ptr

mutual
/-- The `reflect.Value.Type` of a valid value. -/
def typeOf : Val → Ty
  | .bool _ => .bool
  | .int _ => .int
  | .string _ => .string
  | .chan e _ => .chan e
  | .iface _ => .iface
  | .struct fs => .struct (typeOfFields fs)
  | .map e _ => .map e
  | .slice e _ => .slice e
  | .array e xs => .array xs.length e
  | .ptr e _ => .ptr e
/-- Field descriptors of a struct value. -/
def typeOfFields : List (StructField Val) → List (String × Bool × Ty)
  | [] => []
  | f :: fs => (f.name, f.exported, typeOf f.val) :: typeOfFields fs
end

mutual
/-- The zero value of a type, `reflect.Zero`. -/
def zero : Ty → Val
  | .bool => .bool false
  | .int => .int 0
  | .string => .string ""
  | .chan e => .chan e none
  | .iface => .iface none
  | .struct fs => .struct (zeroFields fs)
  | .map e => .map e none
  | .slice e => .slice e none
  | .array n e => .array e (List.replicate n (zero e))
  | .ptr e => .ptr e none
/-- Fields of the zero value of a struct type. -/
def zeroFields : List (String × Bool × Ty) → List (StructField Val)
  | [] => []
  | (n, x, t) :: fs => ⟨n, x, zero t⟩ :: zeroFields fs
end

/-- The kind of a valid value, `v.Type().Kind()`. -/
def kindOf (v : Val) : Kind := (typeOf v).kind

/-- The struct field lookup of `reflect.Value.FieldByName` on a struct without embedded
fields: the first field with the given name, `none` for the zero Value. -/
def FieldByName (name : String) : List (StructField Val) → Option (StructField Val)
  | [] => none
  | f :: fs => if f.name = name then some f else FieldByName name fs

/-- The lookup of `reflect.Value.MapIndex` in the entries of a map: `none` is the zero
Value returned for an absent key. -/
def MapIndex (key : String) : List (String × Val) → Option Val
  | [] => none
  | (k, x) :: es => if k = key then some x else MapIndex key es

/-- The store of `reflect.Value.SetMapIndex` into the entries of an allocated map: the
entry of `key` is overwritten, or inserted when the key is absent. -/
def SetMapIndex (key : String) (x : Val) : List (String × Val) → List (String × Val)
  | [] => [(key, x)]
  | (k, y) :: es => if k = key then (k, x) :: es else (k, y) :: SetMapIndex key x es

/-- The assignment `v.Set(x)` on a valid value `v` with flags `fl`:
`flag.mustBeAssignable` panics when the value is read-only or not addressable. -/
def setValue (fl : Flag) (v x : Val) : Res Val :=
  if fl.ro || !fl.addr then .panicked (.notAssignable "reflect.Value.Set") v else .ok x

/-- The two reasons for which `flag.mustBeAssignable` refuses a valid value, each with a
message of its own: "using value obtained using unexported field" and "using unaddressable
value". -/
inductive AssignFault where
  | unexportedField
  | unaddressable

/-- The check `flag.mustBeAssignable` on a valid value: `flagRO` is tested first, then
`flagAddr`; `none` when the value can be assigned.  The panic value `notAssignable` stands
for the panic with either message. -/
def mustBeAssignable (fl : Flag) : Option AssignFault :=
  if fl.ro then some .unexportedField
  else if fl.addr then none
  else some .unaddressable

/-- The panic of `v.Type()` on the zero Value, with which `redact` starts when it is
handed the result of a failed `FieldByName`, `MapIndex` or `Elem`. -/
def typeOnZeroValue : Panic := .valueError "reflect.Value.Type" .invalid

mutual
/-- The recursive walk `redact(path, v)` on a valid value `v` with flags `fl`.

* empty path: `v.Set(reflect.Zero(v.Type()))`;
* struct: `redact(path[1:], v.FieldByName(path[0]))`;
* map: with one segment left `v.SetMapIndex(key, reflect.Zero(v.Type().Elem()))`, which
  checks `mustBeExported` and panics in the runtime on a nil map; otherwise
  `redact(path[1:], v.MapIndex(key))`;
* array, slice: `redact(path, v.Index(i))` for `i` from `0` to `v.Len() - 1`;
* pointer: `redact(path, v.Elem())`;
* any other kind: the panic "unsupported type". -/
def redact (path : List String) (fl : Flag) (v : Val) : Res Val :=
  match path with
  | [] => setValue fl v (zero (typeOf v))
  | seg :: rest =>
    match v with
    | .struct fs => (redactField seg rest fl fs).map .struct
    | .map _ none =>
      match rest with
      | [] =>
        if fl.ro then .panicked (.notExported "reflect.Value.SetMapIndex") v
        else .panicked .nilMapAssign v
      | _ :: _ => .panicked typeOnZeroValue v
    | .map e (some es) =>
      match rest with
      | [] =>
        if fl.ro then .panicked (.notExported "reflect.Value.SetMapIndex") v
        else .ok (.map e (some (SetMapIndex seg (zero e) es)))
      | _ :: _ => (redactEntry seg rest fl es).map (fun es' => .map e (some es'))
    | .slice _ none => .ok v
    | .slice e (some xs) =>
      (redactElems seg rest ⟨true, fl.ro⟩ xs).map (fun xs' => .slice e (some xs'))
    | .array e xs => (redactElems seg rest fl xs).map (.array e)
    | .ptr _ none => .panicked typeOnZeroValue v
    | .ptr e (some x) => (redact (seg :: rest) ⟨true, fl.ro⟩ x).map (fun x' => .ptr e (some x'))
    | .bool _ => .panicked (.unsupportedType (typeOf v)) v
    | .int _ => .panicked (.unsupportedType (typeOf v)) v
    | .string _ => .panicked (.unsupportedType (typeOf v)) v
    | .chan _ _ => .panicked (.unsupportedType (typeOf v)) v
    | .iface _ => .panicked (.unsupportedType (typeOf v)) v
/-- Struct case, `redact(path[1:], v.FieldByName(path[0]))`: the walk continues in the
first field named `seg`, whose Value inherits `flagAddr` and is read-only when the struct
is or when the field is not exported (`reflect.Value.Field`).  When no field has that
name, `FieldByName` returns the zero Value and the recursive call panics in `v.Type()`. -/
def redactField (seg : String) (rest : List String) (fl : Flag) :
    List (StructField Val) → Res (List (StructField Val))
  | [] => .panicked typeOnZeroValue []
  | f :: fs =>
    if f.name = seg then
      (redact rest ⟨fl.addr, fl.ro || !f.exported⟩ f.val).map (fun x' => ⟨f.name, f.exported, x'⟩ :: fs)
    else (redactField seg rest fl fs).map (fun fs' => f :: fs')
/-- Map case with further segments, `redact(path[1:], v.MapIndex(path[0]))`: the Value
that `MapIndex` returns is a copy, never addressable, read-only when the map is.  What the
walk changes through pointers, slices and maps held by the copy is seen through the map.
For an absent key `MapIndex` returns the zero Value and the recursive call panics. -/
def redactEntry (seg : String) (rest : List String) (fl : Flag) :
    List (String × Val) → Res (List (String × Val))
  | [] => .panicked typeOnZeroValue []
  | (k, x) :: es =>
    if k = seg then (redact rest ⟨false, fl.ro⟩ x).map (fun x' => (k, x') :: es)
    else (redactEntry seg rest fl es).map (fun es' => (k, x) :: es')
/-- Array and slice case, the loop `for i := 0; i < v.Len(); i++` over `redact(path,
v.Index(i))` with the unconsumed path `seg :: rest`; `fl` are the flags of `v.Index(i)`.
A panic at one element leaves the earlier elements redacted and the later ones untouched. -/
def redactElems (seg : String) (rest : List String) (fl : Flag) : List Val → Res (List Val)
  | [] => .ok []
  | x :: xs =>
    match redact (seg :: rest) fl x with
    | .ok x' => (redactElems seg rest fl xs).map (fun xs' => x' :: xs')
    | .panicked e x' => .panicked e (x' :: xs)
end

/-- The exported entry point `Redact(path, v)`, that is
`redact(path, reflect.ValueOf(v).Elem())`.  The argument is the dynamic value held by the
`interface{}` parameter (`none` for a nil interface; it never has kind `interface`).
`Elem` panics unless that value is a pointer; the pointee of a non-nil pointer is
addressable and not read-only; for a nil pointer `Elem` returns the zero Value, on which
`redact` panics in `v.Type()`. -/
def Redact (path : List String) (v : Option Val) : Res (Option Val) :=
  match v with
  | none => .panicked (.valueError "reflect.Value.Elem" .invalid) none
  | some (.ptr e (some x)) => (redact path ⟨true, false⟩ x).map (fun x' => some (.ptr e (some x')))
  | some (.ptr e none) => .panicked typeOnZeroValue (some (.ptr e none))
  | some w => .panicked (.valueError "reflect.Value.Elem" (kindOf w)) (some w)

/-! ## Vocabulary of the statements -/

/-- Record update: the value of the first field named `name` is replaced by `x`; the
name and the exported bit of that field, and every other field, are kept. -/
def setField (name : String) (x : Val) : List (StructField Val) → List (StructField Val)
  | [] => []
  | f :: fs => if f.name = name then ⟨f.name, f.exported, x⟩ :: fs else f :: setField name x fs

/-- Reading along a chain of nested records: `followFields [f1, ..., fN] x` is the value
reached from `x` by selecting `f1`, then `f2`, ..., each time in a struct held by value. -/
def followFields : List String → Val → Option Val
  | [], v => some v
  | f :: rest, .struct fs =>
    match FieldByName f fs with
    | some fld => followFields rest fld.val
    | none => none
  | _ :: _, _ => none

/-- Every field selected along the chain of nested records is an exported field. -/
def exportedAlong : List String → Val → Bool
  | [], _ => true
  | f :: rest, .struct fs =>
    match FieldByName f fs with
    | some fld => fld.exported && exportedAlong rest fld.val
    | none => false
  | _ :: _, _ => false

/-- The elements of an array or slice, `v.Index(0)`, ..., `v.Index(v.Len() - 1)`; a nil
slice has none. -/
def elemsOf : Val → Option (List Val)
  | .slice _ (some xs) => some xs
  | .slice _ none => some []
  | .array _ xs => some xs
  | _ => none

/-- The array or slice `v` with its elements replaced by `xs`; a nil slice stays nil. -/
def withElems (v : Val) (xs : List Val) : Val :=
  match v with
  | .slice e (some _) => .slice e (some xs)
  | .array e _ => .array e xs
  | w => w

/-- The record `v` with field `F` reset: the value of the first field named `F` is replaced
by the zero value of its type.  Values without such a field are returned as they are. -/
def resetField (F : String) : Val → Val
  | .struct fs =>
    match FieldByName F fs with
    | some fld => .struct (setField F (zero (typeOf fld.val)) fs)
    | none => .struct fs
  | v => v

/-- The value `x` behind one non-nil pointer per entry of `ts`, the static types. -/
def wrapRefs : List Ty → Val → Val
  | [], x => x
  | t :: ts, x => .ptr t (some (wrapRefs ts x))

/-! ## Values of the test suite and of the examples -/

/-- The type `user` of `ExampleRedact`, `struct { Name string; Password string }`. -/
def userT : Ty := .struct [("Name", true, .string), ("Password", true, .string)]

/-- A value of type `user`. -/
def user (name password : String) : Val :=
  .struct [⟨"Name", true, .string name⟩, ⟨"Password", true, .string password⟩]

/-- The slice `users` of `ExampleRedact`. -/
def exampleUsers : List Val := [user "John" "letmein", user "Mary" "123456"]

/-- The entries of `usersMap` of `ExampleRedact`, a `map[string]*user`. -/
def exampleUsersMap : List (String × Val) :=
  [("a", .ptr userT (some (user "John" "letmein"))),
   ("b", .ptr userT (some (user "Mary" "123456")))]

/-- The type `struct { password string }`, whose only field is not exported. -/
def secretT : Ty := .struct [("password", false, .string)]

/-- A value of type `struct { password string }`. -/
def secret (password : String) : Val := .struct [⟨"password", false, .string password⟩]

/-! ## The calls of the walk -/

/-- The immediate components of a value: field values, entry values, elements, pointee,
dynamic value of an interface. -/
def children : Val → List Val
  | .struct fs => fs.map (fun f => f.val)
  | .map _ (some es) => es.map (fun kx => kx.2)
  | .slice _ (some xs) => xs
  | .array _ xs => xs
  | .ptr _ (some x) => [x]
  | .iface (some x) => [x]
  | _ => []

mutual
/-- The size of a value, the number of nodes of the tree. -/
def Val.size : Val → Nat
  | .bool _ => 1
  | .int _ => 1
  | .string _ => 1
  | .chan _ _ => 1
  | .iface none => 1
  | .iface (some x) => 1 + x.size
  | .struct fs => 1 + sizeFields fs
  | .map _ none => 1
  | .map _ (some es) => 1 + sizeEntries es
  | .slice _ none => 1
  | .slice _ (some xs) => 1 + sizeElems xs
  | .array _ xs => 1 + sizeElems xs
  | .ptr _ none => 1
  | .ptr _ (some x) => 1 + x.size
/-- Sum of the sizes of the field values. -/
def sizeFields : List (StructField Val) → Nat
  | [] => 0
  | f :: fs => f.val.size + sizeFields fs
/-- Sum of the sizes of the entry values. -/
def sizeEntries : List (String × Val) → Nat
  | [] => 0
  | (_, x) :: es => x.size + sizeEntries es
/-- Sum of the sizes of the elements. -/
def sizeElems : List Val → Nat
  | [] => 0
  | x :: xs => x.size + sizeElems xs
end

mutual
/-- The nesting depth of a value, every container level counted (record, map, array, slice,
pointer): a value without components has depth 0 when it is a scalar and 1 when it is a
container. -/
def Val.depth : Val → Nat
  | .bool _ => 0
  | .int _ => 0
  | .string _ => 0
  | .chan _ _ => 0
  | .iface _ => 0
  | .struct fs => 1 + depthFields fs
  | .map _ none => 1
  | .map _ (some es) => 1 + depthEntries es
  | .slice _ none => 1
  | .slice _ (some xs) => 1 + depthElems xs
  | .array _ xs => 1 + depthElems xs
  | .ptr _ none => 1
  | .ptr _ (some x) => 1 + x.depth
/-- Largest depth of a field value. -/
def depthFields : List (StructField Val) → Nat
  | [] => 0
  | f :: fs => max f.val.depth (depthFields fs)
/-- Largest depth of an entry value. -/
def depthEntries : List (String × Val) → Nat
  | [] => 0
  | (_, x) :: es => max x.depth (depthEntries es)
/-- Largest depth of an element. -/
def depthElems : List Val → Nat
  | [] => 0
  | x :: xs => max x.depth (depthElems xs)
end

/-- The values on which `redact` with a non-empty path takes the `default` branch: the
kind is none of struct, map, array, slice, pointer. -/
def isLeaf : Val → Bool
  | .bool _ => true
  | .int _ => true
  | .string _ => true
  | .chan _ _ => true
  | .iface _ => true
  | _ => false

/-- One activation of `redact`: its path argument and its `reflect.Value` argument, a
valid value with its flags. -/
structure Frame where
  path : List String
  fl : Flag
  val : Val

/-- The recursive calls of `redact` on valid Values: `Calls a b` when the activation `a`
calls `redact` with the arguments `b`.  A struct calls on the field named by the first
segment with the rest of the path; a map with at least two segments calls on the entry of
the first segment with the rest of the path; a slice or array calls on its elements in
index order with the unconsumed path, on an element only once the calls on all earlier
elements have returned; a pointer calls on its pointee with the unconsumed path. -/
inductive Calls : Frame → Frame → Prop where
  | field (seg : String) (rest : List String) (fl : Flag) (fs : List (StructField Val))
      (fld : StructField Val) (h : FieldByName seg fs = some fld) :
      Calls ⟨seg :: rest, fl, .struct fs⟩ ⟨rest, ⟨fl.addr, fl.ro || !fld.exported⟩, fld.val⟩
  | entry (seg s : String) (rest : List String) (fl : Flag) (e : Ty)
      (es : List (String × Val)) (x : Val) (h : MapIndex seg es = some x) :
      Calls ⟨seg :: s :: rest, fl, .map e (some es)⟩ ⟨s :: rest, ⟨false, fl.ro⟩, x⟩
  | sliceElem (seg : String) (rest : List String) (fl : Flag) (e : Ty)
      (pre : List Val) (a : Val) (post : List Val)
      (h : ∀ b ∈ pre, (redact (seg :: rest) ⟨true, fl.ro⟩ b).isOk = true) :
      Calls ⟨seg :: rest, fl, .slice e (some (pre ++ a :: post))⟩ ⟨seg :: rest, ⟨true, fl.ro⟩, a⟩
  | arrayElem (seg : String) (rest : List String) (fl : Flag) (e : Ty)
      (pre : List Val) (a : Val) (post : List Val)
      (h : ∀ b ∈ pre, (redact (seg :: rest) fl b).isOk = true) :
      Calls ⟨seg :: rest, fl, .array e (pre ++ a :: post)⟩ ⟨seg :: rest, fl, a⟩
  | elem (seg : String) (rest : List String) (fl : Flag) (e : Ty) (x : Val) :
      Calls ⟨seg :: rest, fl, .ptr e (some x)⟩ ⟨seg :: rest, ⟨true, fl.ro⟩, x⟩

/-- The activations that the walk started at `a` reaches: `a` itself and, transitively, the
activations it calls. -/
def Visits (a b : Frame) : Prop := Relation.ReflTransGen Calls a b

/-- The measure of an activation: the length of the remaining path and the size of the
value. -/
def Frame.measure (a : Frame) : Nat × Nat := (a.path.length, a.val.size)

/-! ## The walk with a bound on the depth of the recursion -/

/-- The loop `for i := 0; i < v.Len(); i++` of `redact` over a call `f` on the elements
that may fail to yield a result: the loop stops at the first element on which `f` panics,
and yields no result when `f` yields none. -/
def loopElems (f : Val → Option (Res Val)) : List Val → Option (Res (List Val))
  | [] => some (.ok [])
  | x :: xs =>
    match f x with
    | none => none
    | some (.ok x') => (loopElems f xs).map (fun r => r.map (fun xs' => x' :: xs'))
    | some (.panicked e x') => some (.panicked e (x' :: xs))

/-- The walk `redact(path, v)` written as in the source, by general recursion, with a
bound `n` on the depth of the recursion: `none` when the bound is reached.  Each branch
makes the recursive call of the source on the Value that `FieldByName`, `MapIndex`,
`Index` or `Elem` returns, and puts the state left by the call back in place. -/
def redactFuel : Nat → List String → Flag → Val → Option (Res Val)
  | 0, _, _, _ => none
  | _ + 1, [], fl, v => some (setValue fl v (zero (typeOf v)))
  | n + 1, seg :: rest, fl, v =>
    match v with
    | .struct fs =>
      match FieldByName seg fs with
      | none => some (.panicked typeOnZeroValue v)
      | some fld =>
        (redactFuel n rest ⟨fl.addr, fl.ro || !fld.exported⟩ fld.val).map
          (fun r => r.map (fun x' => .struct (setField seg x' fs)))
    | .map _ none =>
      match rest with
      | [] =>
        if fl.ro then some (.panicked (.notExported "reflect.Value.SetMapIndex") v)
        else some (.panicked .nilMapAssign v)
      | _ :: _ => some (.panicked typeOnZeroValue v)
    | .map e (some es) =>
      match rest with
      | [] =>
        if fl.ro then some (.panicked (.notExported "reflect.Value.SetMapIndex") v)
        else some (.ok (.map e (some (SetMapIndex seg (zero e) es))))
      | _ :: _ =>
        match MapIndex seg es with
        | none => some (.panicked typeOnZeroValue v)
        | some x =>
          (redactFuel n rest ⟨false, fl.ro⟩ x).map
            (fun r => r.map (fun x' => .map e (some (SetMapIndex seg x' es))))
    | .slice _ none => some (.ok v)
    | .slice e (some xs) =>
      (loopElems (redactFuel n (seg :: rest) ⟨true, fl.ro⟩) xs).map
        (fun r => r.map (fun xs' => .slice e (some xs')))
    | .array e xs =>
      (loopElems (redactFuel n (seg :: rest) fl) xs).map (fun r => r.map (.array e))
    | .ptr _ none => some (.panicked typeOnZeroValue v)
    | .ptr e (some x) =>
      (redactFuel n (seg :: rest) ⟨true, fl.ro⟩ x).map
        (fun r => r.map (fun x' => .ptr e (some x')))
    | .bool _ => some (.panicked (.unsupportedType (typeOf v)) v)
    | .int _ => some (.panicked (.unsupportedType (typeOf v)) v)
    | .string _ => some (.panicked (.unsupportedType (typeOf v)) v)
    | .chan _ _ => some (.panicked (.unsupportedType (typeOf v)) v)
    | .iface _ => some (.panicked (.unsupportedType (typeOf v)) v)

/-! ## Walks below a Value that is not addressable -/

mutual
/-- The value on which the walk with a non-empty path continues when it meets `v` held by
value: `v` itself unless `v` is an array; for an array its first element, peeled in the
same way (the loop of `redact` calls on the first element first); `none` for an array
without elements, on which the loop makes no call. -/
def peel : Val → Option Val
  | .array _ xs => peelFirst xs
  | .bool b => some (.bool b)
  | .int i => some (.int i)
  | .string s => some (.string s)
  | .chan e o => some (.chan e o)
  | .iface o => some (.iface o)
  | .struct fs => some (.struct fs)
  | .map e o => some (.map e o)
  | .slice e o => some (.slice e o)
  | .ptr e o => some (.ptr e o)
/-- The peeled first element of a list of array elements. -/
def peelFirst : List Val → Option Val
  | [] => none
  | a :: _ => peel a
end

/-- The segments of the path can be followed from the value to the end of the path through
exported fields of records and arrays held by value only: each segment names an exported
field of the record met, and an array is entered through its first element. -/
def byValueTarget : List String → Val → Bool
  | [], _ => true
  | f :: rest, v =>
    match peel v with
    | some (.struct fs) =>
      match FieldByName f fs with
      | some fld => fld.exported && byValueTarget rest fld.val
      | none => false
    | _ => false

/-- While segments remain, the walk from the value meets only records, arrays with
elements and values of a kind that `redact` does not handle: never a pointer, a slice, a
map or an array without elements. -/
def byValueWalk : List String → Val → Bool
  | [], _ => true
  | f :: rest, v =>
    match peel v with
    | some (.struct fs) =>
      match FieldByName f fs with
      | some fld => byValueWalk rest fld.val
      | none => true
    | some w => isLeaf w
    | none => false

/-! ## Unfolding the walk -/

theorem Res.map_ok {α β : Type} (f : α → β) (s : α) : (Res.ok s).map f = .ok (f s) := rfl

theorem Res.map_panicked {α β : Type} (f : α → β) (e : Panic) (s : α) :
    (Res.panicked e s).map f = .panicked e (f s) := rfl

theorem redact_nil (fl : Flag) (v : Val) : redact [] fl v = setValue fl v (zero (typeOf v)) := by
  cases v <;> rfl

theorem redact_struct (seg : String) (rest : List String) (fl : Flag) (fs : List (StructField Val)) :
    redact (seg :: rest) fl (.struct fs) = (redactField seg rest fl fs).map .struct := by
  rw [redact]

theorem redact_ptr (seg : String) (rest : List String) (fl : Flag) (e : Ty) (x : Val) :
    redact (seg :: rest) fl (.ptr e (some x)) =
      (redact (seg :: rest) ⟨true, fl.ro⟩ x).map (fun x' => .ptr e (some x')) := by
  rw [redact]

theorem redact_slice (seg : String) (rest : List String) (fl : Flag) (e : Ty) (xs : List Val) :
    redact (seg :: rest) fl (.slice e (some xs)) =
      (redactElems seg rest ⟨true, fl.ro⟩ xs).map (fun xs' => .slice e (some xs')) := by
  rw [redact]

theorem redact_array (seg : String) (rest : List String) (fl : Flag) (e : Ty) (xs : List Val) :
    redact (seg :: rest) fl (.array e xs) = (redactElems seg rest fl xs).map (.array e) := by
  rw [redact]

theorem redact_map_last (seg : String) (fl : Flag) (e : Ty) (es : List (String × Val)) :
    redact [seg] fl (.map e (some es)) =
      if fl.ro then .panicked (.notExported "reflect.Value.SetMapIndex") (.map e (some es))
      else .ok (.map e (some (SetMapIndex seg (zero e) es))) := by
  rw [redact]

theorem redact_map_more (seg s : String) (rest : List String) (fl : Flag) (e : Ty)
    (es : List (String × Val)) :
    redact (seg :: s :: rest) fl (.map e (some es)) =
      (redactEntry seg (s :: rest) fl es).map (fun es' => .map e (some es')) := by
  rw [redact]

theorem redactField_none (seg : String) (rest : List String) (fl : Flag)
    (fs : List (StructField Val)) (h : FieldByName seg fs = none) :
    redactField seg rest fl fs = .panicked typeOnZeroValue fs := by
  induction fs with
  | nil => rfl
  | cons f fs ih =>
    unfold FieldByName at h
    split at h
    · cases h
    · rename_i hne
      rw [redactField, if_neg hne, ih h]; rfl

theorem redactField_some (seg : String) (rest : List String) (fl : Flag)
    (fs : List (StructField Val)) (fld : StructField Val) (h : FieldByName seg fs = some fld) :
    redactField seg rest fl fs =
      (redact rest ⟨fl.addr, fl.ro || !fld.exported⟩ fld.val).map (fun x' => setField seg x' fs) := by
  induction fs with
  | nil => cases h
  | cons f fs ih =>
    unfold FieldByName at h
    split at h
    · rename_i heq
      cases h
      rw [redactField, if_pos heq]
      congr 1
      funext x'
      simp [setField, heq]
    · rename_i hne
      rw [redactField, if_neg hne, ih h]
      cases redact rest ⟨fl.addr, fl.ro || !fld.exported⟩ fld.val <;> simp [Res.map, setField, hne]

theorem redactEntry_none (seg : String) (rest : List String) (fl : Flag)
    (es : List (String × Val)) (h : MapIndex seg es = none) :
    redactEntry seg rest fl es = .panicked typeOnZeroValue es := by
  induction es with
  | nil => rfl
  | cons kx es ih =>
    obtain ⟨k, x⟩ := kx
    unfold MapIndex at h
    split at h
    · cases h
    · rename_i hne
      rw [redactEntry, if_neg hne, ih h]; rfl

theorem redactEntry_some (seg : String) (rest : List String) (fl : Flag)
    (es : List (String × Val)) (x : Val) (h : MapIndex seg es = some x) :
    redactEntry seg rest fl es =
      (redact rest ⟨false, fl.ro⟩ x).map (fun x' => SetMapIndex seg x' es) := by
  induction es with
  | nil => cases h
  | cons ky es ih =>
    obtain ⟨k, y⟩ := ky
    unfold MapIndex at h
    split at h
    · rename_i heq
      cases h
      rw [redactEntry, if_pos heq]
      congr 1
      funext x'
      simp [SetMapIndex, heq]
    · rename_i hne
      rw [redactEntry, if_neg hne, ih h]
      cases redact rest ⟨false, fl.ro⟩ x <;> simp [Res.map, SetMapIndex, hne]

theorem FieldByName_setField_self (name : String) (x : Val) (fs : List (StructField Val))
    (fld : StructField Val) (h : FieldByName name fs = some fld) :
    FieldByName name (setField name x fs) = some ⟨fld.name, fld.exported, x⟩ := by
  induction fs with
  | nil => cases h
  | cons f fs ih =>
    unfold FieldByName at h
    split at h
    · rename_i heq
      cases h
      simp [setField, heq, FieldByName]
    · rename_i hne
      simp [setField, hne, FieldByName, ih h]

theorem FieldByName_setField_ne (name g : String) (x : Val) (fs : List (StructField Val))
    (hg : g ≠ name) : FieldByName g (setField name x fs) = FieldByName g fs := by
  induction fs with
  | nil => rfl
  | cons f fs ih =>
    by_cases hf : f.name = name
    · have hfg : ¬ f.name = g := fun h => hg (h ▸ hf)
      rw [setField, if_pos hf, FieldByName, FieldByName, if_neg hfg, if_neg hfg]
    · rw [setField, if_neg hf, FieldByName, FieldByName, ih]

theorem MapIndex_SetMapIndex_self (key : String) (x : Val) (es : List (String × Val)) :
    MapIndex key (SetMapIndex key x es) = some x := by
  induction es with
  | nil => simp [SetMapIndex, MapIndex]
  | cons ky es ih =>
    obtain ⟨k, y⟩ := ky
    by_cases hk : k = key
    · simp [SetMapIndex, MapIndex, hk]
    · simp [SetMapIndex, MapIndex, hk, ih]

theorem MapIndex_SetMapIndex_ne (key g : String) (x : Val) (es : List (String × Val))
    (hg : g ≠ key) : MapIndex g (SetMapIndex key x es) = MapIndex g es := by
  induction es with
  | nil => simp [SetMapIndex, MapIndex, Ne.symm hg]
  | cons ky es ih =>
    obtain ⟨k, y⟩ := ky
    by_cases hk : k = key
    · have hkg : ¬ k = g := fun h => hg (h ▸ hk)
      rw [SetMapIndex, if_pos hk, MapIndex, MapIndex, if_neg hkg, if_neg hkg]
    · rw [SetMapIndex, if_neg hk, MapIndex, MapIndex, ih]

theorem keys_SetMapIndex_present (key : String) (x y : Val) (es : List (String × Val))
    (h : MapIndex key es = some y) :
    (SetMapIndex key x es).map Prod.fst = es.map Prod.fst := by
  induction es with
  | nil => cases h
  | cons kz es ih =>
    obtain ⟨k, z⟩ := kz
    by_cases hk : k = key
    · simp [SetMapIndex, hk]
    · simp [MapIndex, hk] at h
      simp [SetMapIndex, hk, ih h]

theorem followFields_cons_struct (f : String) (rest : List String) (fs : List (StructField Val))
    (fld : StructField Val) (h : FieldByName f fs = some fld) :
    followFields (f :: rest) (.struct fs) = followFields rest fld.val := by
  simp [followFields, h]

theorem followFields_cons_some (f : String) (rest : List String) (x t : Val)
    (h : followFields (f :: rest) x = some t) :
    ∃ fs fld, x = .struct fs ∧ FieldByName f fs = some fld ∧ followFields rest fld.val = some t := by
  cases x with
  | struct fs =>
    cases hf : FieldByName f fs with
    | none => simp [followFields, hf] at h
    | some fld => exact ⟨fs, fld, rfl, hf, by simpa [followFields, hf] using h⟩
  | _ => simp [followFields] at h

/-- The walk along a chain of nested records with exported fields, started at an
addressable value that is not read-only. -/
theorem redact_chain (p : List String) :
    ∀ (fl : Flag) (x t : Val), fl.addr = true → fl.ro = false →
      followFields p x = some t → exportedAlong p x = true →
      ∃ x', redact p fl x = .ok x' ∧ followFields p x' = some (zero (typeOf t)) ∧
        ∀ r f s g, p = r ++ f :: s → g ≠ f →
          followFields (r ++ [g]) x' = followFields (r ++ [g]) x := by
  induction p with
  | nil =>
    intro fl x t ha hr hf _
    refine ⟨zero (typeOf x), ?_, ?_, ?_⟩
    · rw [redact_nil, setValue, ha, hr]; rfl
    · simp only [followFields] at hf ⊢
      cases hf; rfl
    · intro r f s g h
      cases r <;> cases h
  | cons f0 rest ih =>
    intro fl x t ha hr hf hexp
    obtain ⟨fs, fld, rfl, hfld, hrest⟩ := followFields_cons_some f0 rest x t hf
    have hexp' : fld.exported = true ∧ exportedAlong rest fld.val = true := by
      simpa [exportedAlong, hfld] using hexp
    obtain ⟨v', hv', hget, hframe⟩ :=
      ih ⟨fl.addr, fl.ro || !fld.exported⟩ fld.val t ha (by simp [hr, hexp'.1]) hrest hexp'.2
    refine ⟨.struct (setField f0 v' fs), ?_, ?_, ?_⟩
    · rw [redact_struct, redactField_some f0 rest fl fs fld hfld, hv']; rfl
    · rw [followFields_cons_struct f0 rest _ _ (FieldByName_setField_self f0 v' fs fld hfld)]
      exact hget
    · intro r f s g h hg
      cases r with
      | nil =>
        simp only [List.nil_append, List.cons.injEq] at h
        obtain ⟨rfl, rfl⟩ := h
        simp [followFields, FieldByName_setField_ne _ _ v' fs hg]
      | cons a r =>
        simp only [List.cons_append, List.cons.injEq] at h
        obtain ⟨rfl, h⟩ := h
        rw [List.cons_append,
          followFields_cons_struct _ _ _ _ (FieldByName_setField_self _ v' fs fld hfld),
          followFields_cons_struct _ _ _ _ hfld]
        exact hframe r f s g h hg

theorem setField_same (name : String) (fs : List (StructField Val)) (fld : StructField Val)
    (h : FieldByName name fs = some fld) : setField name fld.val fs = fs := by
  induction fs with
  | nil => rfl
  | cons f fs ih =>
    unfold FieldByName at h
    split at h
    · rename_i heq
      cases h
      rw [setField, if_pos heq]
    · rename_i hne
      rw [setField, if_neg hne, ih h]

theorem SetMapIndex_same (key : String) (es : List (String × Val)) (x : Val)
    (h : MapIndex key es = some x) : SetMapIndex key x es = es := by
  induction es with
  | nil => cases h
  | cons ky es ih =>
    obtain ⟨k, y⟩ := ky
    unfold MapIndex at h
    split at h
    · rename_i heq
      cases h
      rw [SetMapIndex, if_pos heq]
    · rename_i hne
      rw [SetMapIndex, if_neg hne, ih h]

theorem redact_field_exported (F : String) (fl : Flag) (fs : List (StructField Val))
    (fld : StructField Val) (ha : fl.addr = true) (hr : fl.ro = false)
    (hF : FieldByName F fs = some fld) (hexp : fld.exported = true) :
    redact [F] fl (.struct fs) = .ok (.struct (setField F (zero (typeOf fld.val)) fs)) := by
  rw [redact_struct, redactField_some F [] fl fs fld hF, redact_nil, setValue]
  simp [ha, hr, hexp, Res.map]

theorem redactElems_resetField (F : String) (fl : Flag) (ha : fl.addr = true) (hr : fl.ro = false)
    (xs : List Val)
    (h : ∀ a ∈ xs, ∃ fs fld, a = .struct fs ∧ FieldByName F fs = some fld ∧ fld.exported = true) :
    redactElems F [] fl xs = .ok (xs.map (resetField F)) := by
  induction xs with
  | nil => rfl
  | cons a xs ih =>
    obtain ⟨fs, fld, rfl, hF, hexp⟩ := h a (List.mem_cons_self _ _)
    rw [redactElems, redact_field_exported F fl fs fld ha hr hF hexp]
    simp only [ih (fun b hb => h b (List.mem_cons_of_mem _ hb)), Res.map, List.map_cons,
      resetField, hF]

/-! ## Claims -/

/-- C1, amended (all fields on the chain exported): for a chain of nested records `x` in
which the field names `p = [f1, ..., fN]` can be followed in turn, every one of them an
exported field, `Redact(p, &x)` returns; in the result the field reached by `p` holds the
zero value of its type, and at every level of the chain every sibling field is unchanged. -/
theorem Redact_record_chain (p : List String) (e : Ty) (x t : Val)
    (hchain : followFields p x = some t) (hexp : exportedAlong p x = true) :
    ∃ x', Redact p (some (.ptr e (some x))) = .ok (some (.ptr e (some x'))) ∧
      followFields p x' = some (zero (typeOf t)) ∧
      ∀ r f s g, p = r ++ f :: s → g ≠ f →
        followFields (r ++ [g]) x' = followFields (r ++ [g]) x := by
  obtain ⟨x', hx', hget, hframe⟩ := redact_chain p ⟨true, false⟩ x t rfl rfl hchain hexp
  exact ⟨x', by rw [Redact, hx']; rfl, hget, hframe⟩

/-- Witness of C1 on the path `Demo2.NestedPassword` of the test suite. -/
theorem Redact_record_chain_witness :
    followFields ["Demo2", "NestedPassword"]
        (.struct [⟨"Password", true, .string "foo"⟩,
          ⟨"Demo2", true, .struct [⟨"NestedPassword", true, .string "foo"⟩]⟩])
      = some (.string "foo") ∧
    ∃ x', Redact ["Demo2", "NestedPassword"]
        (some (.ptr .iface (some (.struct [⟨"Password", true, .string "foo"⟩,
          ⟨"Demo2", true, .struct [⟨"NestedPassword", true, .string "foo"⟩]⟩]))))
        = .ok (some (.ptr .iface (some x'))) ∧
      followFields ["Demo2", "NestedPassword"] x' = some (zero (typeOf (.string "foo"))) ∧
      ∀ r f s g, ["Demo2", "NestedPassword"] = r ++ f :: s → g ≠ f →
        followFields (r ++ [g]) x' = followFields (r ++ [g])
          (.struct [⟨"Password", true, .string "foo"⟩,
            ⟨"Demo2", true, .struct [⟨"NestedPassword", true, .string "foo"⟩]⟩]) :=
  ⟨rfl, Redact_record_chain ["Demo2", "NestedPassword"] .iface _ (.string "foo") rfl rfl⟩

/-- C1 as stated fails: the field `password` of `struct { password string }` can be
followed, yet `Redact` panics in `Set` because the field is not exported, and the record
is left as it was. -/
theorem Redact_unexported_field_panics :
    followFields ["password"] (secret "hunter2") = some (.string "hunter2") ∧
    Redact ["password"] (some (.ptr secretT (some (secret "hunter2"))))
      = .panicked (.notAssignable "reflect.Value.Set")
          (some (.ptr secretT (some (secret "hunter2")))) :=
  ⟨rfl, rfl⟩

/-- C2, amended (field `F` exported): for a sequence `seq` (array or slice) of `N` records
that each have an exported field `F`, `Redact([F], &seq)` returns; the sequence keeps its
length, and its `i`-th element is the original `i`-th element with `F` replaced by the
zero value of its type, every other field unchanged; an empty sequence is left as it is.
The same path `[F]` is applied to every element. -/
theorem Redact_sequence_broadcast (F : String) (e : Ty) (seq : Val) (xs : List Val)
    (hseq : elemsOf seq = some xs)
    (hrec : ∀ a ∈ xs, ∃ fs fld, a = .struct fs ∧ FieldByName F fs = some fld ∧
      fld.exported = true) :
    ∃ xs', Redact [F] (some (.ptr e (some seq))) = .ok (some (.ptr e (some (withElems seq xs')))) ∧
      elemsOf (withElems seq xs') = some xs' ∧
      xs'.length = xs.length ∧
      (∀ (i : Nat) (fs : List (StructField Val)) (fld : StructField Val),
        xs[i]? = some (.struct fs) → FieldByName F fs = some fld →
        xs'[i]? = some (.struct (setField F (zero (typeOf fld.val)) fs))) ∧
      (xs = [] → withElems seq xs' = seq) := by
  refine ⟨xs.map (resetField F), ?_, ?_, by simp, ?_, ?_⟩
  · cases seq with
    | slice t o =>
      cases o with
      | none =>
        simp only [elemsOf, Option.some.injEq] at hseq
        subst hseq
        rfl
      | some ys =>
        simp only [elemsOf, Option.some.injEq] at hseq
        subst hseq
        rw [Redact, redact_slice, redactElems_resetField F ⟨true, false⟩ rfl rfl ys hrec]
        rfl
    | array t ys =>
      simp only [elemsOf, Option.some.injEq] at hseq
      subst hseq
      rw [Redact, redact_array, redactElems_resetField F ⟨true, false⟩ rfl rfl ys hrec]
      rfl
    | _ => simp [elemsOf] at hseq
  · cases seq with
    | slice t o =>
      cases o with
      | none =>
        simp only [elemsOf, Option.some.injEq] at hseq
        subst hseq
        rfl
      | some ys => rfl
    | array t ys => rfl
    | _ => simp [elemsOf] at hseq
  · intro i fs fld hi hF
    simp [List.getElem?_map, hi, resetField, hF]
  · intro hnil
    subst hnil
    cases seq with
    | slice t o =>
      cases o with
      | none => rfl
      | some ys =>
        simp only [elemsOf, Option.some.injEq] at hseq
        subst hseq
        rfl
    | array t ys =>
      simp only [elemsOf, Option.some.injEq] at hseq
      subst hseq
      rfl
    | _ => simp [elemsOf] at hseq

/-- Witness of C2 on the two users of `ExampleRedact`. -/
theorem Redact_sequence_broadcast_witness :
    elemsOf (.slice userT (some exampleUsers)) = some exampleUsers ∧
    (∀ a ∈ exampleUsers, ∃ fs fld, a = .struct fs ∧ FieldByName "Password" fs = some fld ∧
      fld.exported = true) ∧
    ∃ xs', Redact ["Password"] (some (.ptr (.slice userT) (some (.slice userT (some exampleUsers)))))
        = .ok (some (.ptr (.slice userT)
            (some (withElems (.slice userT (some exampleUsers)) xs')))) ∧
      elemsOf (withElems (.slice userT (some exampleUsers)) xs') = some xs' ∧
      xs'.length = exampleUsers.length ∧
      (∀ (i : Nat) (fs : List (StructField Val)) (fld : StructField Val),
        exampleUsers[i]? = some (.struct fs) → FieldByName "Password" fs = some fld →
        xs'[i]? = some (.struct (setField "Password" (zero (typeOf fld.val)) fs))) ∧
      (exampleUsers = [] → withElems (.slice userT (some exampleUsers)) xs'
        = .slice userT (some exampleUsers)) :=
  have h : ∀ a ∈ exampleUsers, ∃ fs fld, a = .struct fs ∧
      FieldByName "Password" fs = some fld ∧ fld.exported = true := by
    intro a ha
    simp only [exampleUsers, List.mem_cons, List.mem_singleton, List.not_mem_nil, or_false] at ha
    rcases ha with rfl | rfl
    · exact ⟨_, ⟨"Password", true, .string "letmein"⟩, rfl, rfl, rfl⟩
    · exact ⟨_, ⟨"Password", true, .string "123456"⟩, rfl, rfl, rfl⟩
  ⟨rfl, h, Redact_sequence_broadcast "Password" (.slice userT) _ exampleUsers rfl h⟩

/-- C2 as stated fails: a slice of one record whose field `password` is not exported;
`Redact` panics in `Set` at the first element and the slice is left as it was. -/
theorem Redact_sequence_unexported_panics :
    elemsOf (.slice secretT (some [secret "hunter2"])) = some [secret "hunter2"] ∧
    FieldByName "password" [⟨"password", false, .string "hunter2"⟩]
      = some ⟨"password", false, .string "hunter2"⟩ ∧
    Redact ["password"]
        (some (.ptr (.slice secretT) (some (.slice secretT (some [secret "hunter2"])))))
      = .panicked (.notAssignable "reflect.Value.Set")
          (some (.ptr (.slice secretT) (some (.slice secretT (some [secret "hunter2"]))))) :=
  ⟨rfl, rfl, rfl⟩

/-- C3: for a map `m` and a key `k` present in `m`, `Redact([k], &m)` returns; afterwards
the entry of `k` is the zero value of the map's element type (the nil pointer when the
element type is a pointer type), the keys of `m` are the same, and the value at every other
key is unchanged. -/
theorem Redact_map_entry (k : String) (r e : Ty) (es : List (String × Val)) (y : Val)
    (hk : MapIndex k es = some y) :
    ∃ es', Redact [k] (some (.ptr r (some (.map e (some es)))))
        = .ok (some (.ptr r (some (.map e (some es'))))) ∧
      MapIndex k es' = some (zero e) ∧
      (∀ t, e = .ptr t → MapIndex k es' = some (.ptr t none)) ∧
      es'.map Prod.fst = es.map Prod.fst ∧
      ∀ g, g ≠ k → MapIndex g es' = MapIndex g es := by
  refine ⟨SetMapIndex k (zero e) es, ?_, MapIndex_SetMapIndex_self k _ es, ?_,
    keys_SetMapIndex_present k _ y es hk, fun g hg => MapIndex_SetMapIndex_ne k g _ es hg⟩
  · rw [Redact, redact_map_last]; rfl
  · rintro t rfl
    rw [MapIndex_SetMapIndex_self]; rfl

/-- Witness of C3 on `usersMap` of `ExampleRedact` and its key `a`. -/
theorem Redact_map_entry_witness :
    MapIndex "a" exampleUsersMap = some (.ptr userT (some (user "John" "letmein"))) ∧
    ∃ es', Redact ["a"] (some (.ptr (.map (.ptr userT)) (some (.map (.ptr userT)
          (some exampleUsersMap)))))
        = .ok (some (.ptr (.map (.ptr userT)) (some (.map (.ptr userT) (some es'))))) ∧
      MapIndex "a" es' = some (zero (.ptr userT)) ∧
      (∀ t, Ty.ptr userT = .ptr t → MapIndex "a" es' = some (.ptr t none)) ∧
      es'.map Prod.fst = exampleUsersMap.map Prod.fst ∧
      ∀ g, g ≠ "a" → MapIndex g es' = MapIndex g exampleUsersMap :=
  ⟨rfl, Redact_map_entry "a" (.map (.ptr userT)) (.ptr userT) exampleUsersMap _ rfl⟩

/-- C4, amended (field `F` exported, no aliasing): for a map `m` whose element type is a
pointer to a record and whose entries share no pointee (a value without aliasing, as every
value of the model), a key `k` present in `m` with a non-nil pointer, and an exported field
`F` of the record, `Redact([k, F], &m)` returns; afterwards the record that the entry of
`k` points to has `F` equal to the zero value of its type and every other field unchanged,
the keys of `m` are the same, and the entry at every other key, with the record it points
to, is unchanged. -/
theorem Redact_map_of_pointers (k F : String) (r T T' : Ty) (es : List (String × Val))
    (fs : List (StructField Val)) (fld : StructField Val)
    (hk : MapIndex k es = some (.ptr T' (some (.struct fs))))
    (hF : FieldByName F fs = some fld) (hexp : fld.exported = true) :
    ∃ es' fs', Redact [k, F] (some (.ptr r (some (.map (.ptr T) (some es)))))
        = .ok (some (.ptr r (some (.map (.ptr T) (some es'))))) ∧
      MapIndex k es' = some (.ptr T' (some (.struct fs'))) ∧
      FieldByName F fs' = some ⟨fld.name, fld.exported, zero (typeOf fld.val)⟩ ∧
      (∀ g, g ≠ F → FieldByName g fs' = FieldByName g fs) ∧
      es'.map Prod.fst = es.map Prod.fst ∧
      ∀ g, g ≠ k → MapIndex g es' = MapIndex g es := by
  refine ⟨SetMapIndex k (.ptr T' (some (.struct (setField F (zero (typeOf fld.val)) fs)))) es,
    setField F (zero (typeOf fld.val)) fs, ?_, MapIndex_SetMapIndex_self k _ es,
    FieldByName_setField_self F _ fs fld hF, fun g hg => FieldByName_setField_ne F g _ fs hg,
    keys_SetMapIndex_present k _ _ es hk, fun g hg => MapIndex_SetMapIndex_ne k g _ es hg⟩
  rw [Redact, redact_map_more, redactEntry_some k [F] _ es _ hk, redact_ptr,
    redact_field_exported F _ fs fld rfl rfl hF hexp]
  rfl

/-- Witness of C4 on `usersMap` of `ExampleRedact` and the path `a.Password`. -/
theorem Redact_map_of_pointers_witness :
    MapIndex "a" exampleUsersMap = some (.ptr userT (some (user "John" "letmein"))) ∧
    FieldByName "Password" [⟨"Name", true, .string "John"⟩, ⟨"Password", true, .string "letmein"⟩]
      = some ⟨"Password", true, .string "letmein"⟩ ∧
    ∃ es' fs', Redact ["a", "Password"] (some (.ptr (.map (.ptr userT)) (some (.map (.ptr userT)
          (some exampleUsersMap)))))
        = .ok (some (.ptr (.map (.ptr userT)) (some (.map (.ptr userT) (some es'))))) ∧
      MapIndex "a" es' = some (.ptr userT (some (.struct fs'))) ∧
      FieldByName "Password" fs' = some ⟨"Password", true, zero (typeOf (.string "letmein"))⟩ ∧
      (∀ g, g ≠ "Password" → FieldByName g fs'
        = FieldByName g [⟨"Name", true, .string "John"⟩, ⟨"Password", true, .string "letmein"⟩]) ∧
      es'.map Prod.fst = exampleUsersMap.map Prod.fst ∧
      ∀ g, g ≠ "a" → MapIndex g es' = MapIndex g exampleUsersMap :=
  ⟨rfl, rfl, Redact_map_of_pointers "a" "Password" (.map (.ptr userT)) userT userT
    exampleUsersMap _ ⟨"Password", true, .string "letmein"⟩ rfl rfl rfl⟩

/-- C4 as stated fails: in a `map[string]*struct { password string }` the key `a` is
present with a non-nil pointer and `password` is a field of the record, yet `Redact`
panics in `Set` because the field is not exported; the map is left as it was.  (The claim
also fails on a map that holds one pointer under two keys, where the write through the
entry of `k` is seen through the other key; such a map is not a value of the model, and the
amended claim excludes it.) -/
theorem Redact_map_of_pointers_unexported_panics :
    MapIndex "a" [("a", .ptr secretT (some (secret "hunter2")))]
      = some (.ptr secretT (some (secret "hunter2"))) ∧
    FieldByName "password" [⟨"password", false, .string "hunter2"⟩]
      = some ⟨"password", false, .string "hunter2"⟩ ∧
    Redact ["a", "password"]
        (some (.ptr (.map (.ptr secretT)) (some (.map (.ptr secretT)
          (some [("a", .ptr secretT (some (secret "hunter2")))])))))
      = .panicked (.notAssignable "reflect.Value.Set")
          (some (.ptr (.map (.ptr secretT)) (some (.map (.ptr secretT)
            (some [("a", .ptr secretT (some (secret "hunter2")))]))))) :=
  ⟨rfl, rfl, rfl⟩

/-- C5: for a map `m` whose entries are records held by value, a key `k` present in `m`
and a field `F` of the record at `k`, `Redact([k, F], &m)` panics in `Set`, because the
field of the copy returned by `MapIndex` is not assignable; the state left behind is `m`
itself, so the entry of `k` and its field `F` hold their original values. -/
theorem Redact_map_of_records (k F : String) (r e : Ty) (es : List (String × Val))
    (fs : List (StructField Val)) (fld : StructField Val)
    (hk : MapIndex k es = some (.struct fs)) (hF : FieldByName F fs = some fld) :
    Redact [k, F] (some (.ptr r (some (.map e (some es)))))
      = .panicked (.notAssignable "reflect.Value.Set")
          (some (.ptr r (some (.map e (some es))))) := by
  rw [Redact, redact_map_more, redactEntry_some k [F] _ es _ hk, redact_struct,
    redactField_some F [] _ fs fld hF, redact_nil, setValue]
  simp only [Bool.not_false, Bool.or_true, if_true, Res.map, setField_same F fs fld hF,
    SetMapIndex_same k es _ hk]

/-- Witness of C5 on a `map[string]user` with the entries of `ExampleRedact` held by
value. -/
theorem Redact_map_of_records_witness :
    MapIndex "a" [("a", user "John" "letmein"), ("b", user "Mary" "123456")]
      = some (.struct [⟨"Name", true, .string "John"⟩, ⟨"Password", true, .string "letmein"⟩]) ∧
    FieldByName "Password" [⟨"Name", true, .string "John"⟩, ⟨"Password", true, .string "letmein"⟩]
      = some ⟨"Password", true, .string "letmein"⟩ ∧
    Redact ["a", "Password"] (some (.ptr (.map userT) (some (.map userT
        (some [("a", user "John" "letmein"), ("b", user "Mary" "123456")])))))
      = .panicked (.notAssignable "reflect.Value.Set") (some (.ptr (.map userT) (some (.map userT
        (some [("a", user "John" "letmein"), ("b", user "Mary" "123456")]))))) :=
  ⟨rfl, rfl, Redact_map_of_records "a" "Password" (.map userT) userT _ _ _ rfl rfl⟩

theorem Res.map_map {α β γ : Type} (f : α → β) (g : β → γ) (r : Res α) :
    (r.map f).map g = r.map (fun a => g (f a)) := by
  cases r <;> rfl

theorem Res.isOk_map {α β : Type} (f : α → β) (r : Res α) : (r.map f).isOk = r.isOk := by
  cases r <;> rfl

/-- Pointer steps pass the unconsumed path on: below one pointer the walk continues at an
addressable pointee that inherits the read-only bit, whatever the number of further
pointers. -/
theorem redact_wrapRefs (seg : String) (rest : List String) (ro : Bool) (x : Val) (ts : List Ty) :
    redact (seg :: rest) ⟨true, ro⟩ (wrapRefs ts x)
      = (redact (seg :: rest) ⟨true, ro⟩ x).map (wrapRefs ts) := by
  induction ts with
  | nil =>
    show redact (seg :: rest) ⟨true, ro⟩ x = _
    cases redact (seg :: rest) ⟨true, ro⟩ x <;> rfl
  | cons t ts ih =>
    rw [wrapRefs, redact_ptr, ih, Res.map_map]
    rfl

theorem Redact_ptr (path : List String) (e : Ty) (x : Val) :
    Redact path (some (.ptr e (some x)))
      = (redact path ⟨true, false⟩ x).map (fun x' => some (.ptr e (some x'))) := rfl

/-- C6: for a non-empty path `p` and a value `x` behind any number of non-nil pointers
(one per entry of `ts`), `Redact` on the pointer chain returns exactly when `Redact(p, &x)`
returns; when `Redact(p, &x)` returns with `x` redacted to `x'`, the chain afterwards
points at `x'`; when it panics leaving `x'`, the chain raises the same panic and points at
`x'`.  No pointer step consumes a path segment. -/
theorem Redact_reference_transparent (p : List String) (hp : p ≠ []) (ts : List Ty)
    (e e0 : Ty) (x : Val) :
    (Redact p (some (.ptr e (some (wrapRefs ts x))))).isOk
        = (Redact p (some (.ptr e0 (some x)))).isOk ∧
    (∀ x', Redact p (some (.ptr e0 (some x))) = .ok (some (.ptr e0 (some x'))) →
      Redact p (some (.ptr e (some (wrapRefs ts x))))
        = .ok (some (.ptr e (some (wrapRefs ts x'))))) ∧
    (∀ err x', Redact p (some (.ptr e0 (some x))) = .panicked err (some (.ptr e0 (some x'))) →
      Redact p (some (.ptr e (some (wrapRefs ts x))))
        = .panicked err (some (.ptr e (some (wrapRefs ts x'))))) := by
  obtain ⟨seg, rest, rfl⟩ : ∃ seg rest, p = seg :: rest := by
    cases p with
    | nil => exact absurd rfl hp
    | cons seg rest => exact ⟨seg, rest, rfl⟩
  rw [Redact_ptr, Redact_ptr, redact_wrapRefs]
  cases h : redact (seg :: rest) ⟨true, false⟩ x with
  | ok s =>
    refine ⟨rfl, ?_, ?_⟩
    · intro x' hx'
      simp only [Res.map, Res.ok.injEq, Option.some.injEq, Val.ptr.injEq, true_and] at hx'
      subst hx'
      rfl
    · intro err x' hx'
      simp [Res.map] at hx'
  | panicked err0 s =>
    refine ⟨rfl, ?_, ?_⟩
    · intro x' hx'
      simp [Res.map] at hx'
    · intro err x' hx'
      simp only [Res.map, Res.panicked.injEq, Option.some.injEq, Val.ptr.injEq, true_and] at hx'
      obtain ⟨rfl, rfl⟩ := hx'
      rfl

/-- Witness of C6: the first user of `ExampleRedact` behind two further pointers. -/
theorem Redact_reference_transparent_witness :
    ["Password"] ≠ [] ∧
    ((Redact ["Password"]
        (some (.ptr (.ptr (.ptr userT)) (some (wrapRefs [.ptr userT, userT]
          (user "John" "letmein")))))).isOk
      = (Redact ["Password"] (some (.ptr userT (some (user "John" "letmein"))))).isOk ∧
    (∀ x', Redact ["Password"] (some (.ptr userT (some (user "John" "letmein"))))
        = .ok (some (.ptr userT (some x'))) →
      Redact ["Password"]
          (some (.ptr (.ptr (.ptr userT)) (some (wrapRefs [.ptr userT, userT]
            (user "John" "letmein")))))
        = .ok (some (.ptr (.ptr (.ptr userT)) (some (wrapRefs [.ptr userT, userT] x'))))) ∧
    (∀ err x', Redact ["Password"] (some (.ptr userT (some (user "John" "letmein"))))
        = .panicked err (some (.ptr userT (some x'))) →
      Redact ["Password"]
          (some (.ptr (.ptr (.ptr userT)) (some (wrapRefs [.ptr userT, userT]
            (user "John" "letmein")))))
        = .panicked err
            (some (.ptr (.ptr (.ptr userT)) (some (wrapRefs [.ptr userT, userT] x')))))) :=
  ⟨by simp, Redact_reference_transparent ["Password"] (by simp) [.ptr userT, userT]
    (.ptr (.ptr userT)) userT (user "John" "letmein")⟩

theorem zeroFields_typeOfFields (fs : List (StructField Val)) :
    zeroFields (typeOfFields fs)
      = fs.map (fun f => ⟨f.name, f.exported, zero (typeOf f.val)⟩) := by
  induction fs with
  | nil => rfl
  | cons f fs ih => rw [typeOfFields, zeroFields, ih]; rfl

theorem redact_nil_settable (v : Val) : redact [] ⟨true, false⟩ v = .ok (zero (typeOf v)) := by
  rw [redact_nil]; rfl

theorem redact_map_nil_more (seg s : String) (rest : List String) (fl : Flag) (e : Ty) :
    redact (seg :: s :: rest) fl (.map e none) = .panicked typeOnZeroValue (.map e none) := by
  rw [redact]

/-- C7, amended (arrays keep their length): `Redact` with the empty path on `&x` returns
and replaces `x` by the zero value of its type, without descending into `x`: a slice
becomes the nil slice, a map the nil map, a pointer the nil pointer, a record the record of
the zero values of its fields, and an array the array of the same length whose elements
are all the zero value of the element type. -/
theorem Redact_empty_path (e : Ty) :
    (∀ x, Redact [] (some (.ptr e (some x))) = .ok (some (.ptr e (some (zero (typeOf x)))))) ∧
    (∀ t o, Redact [] (some (.ptr e (some (.slice t o))))
      = .ok (some (.ptr e (some (.slice t none))))) ∧
    (∀ t o, Redact [] (some (.ptr e (some (.map t o))))
      = .ok (some (.ptr e (some (.map t none))))) ∧
    (∀ t o, Redact [] (some (.ptr e (some (.ptr t o))))
      = .ok (some (.ptr e (some (.ptr t none))))) ∧
    (∀ fs, Redact [] (some (.ptr e (some (.struct fs))))
      = .ok (some (.ptr e (some (.struct
          (fs.map (fun f => ⟨f.name, f.exported, zero (typeOf f.val)⟩))))))) ∧
    (∀ t xs, Redact [] (some (.ptr e (some (.array t xs))))
      = .ok (some (.ptr e (some (.array t (List.replicate xs.length (zero t))))))) ∧
    (∀ b, Redact [] (some (.ptr e (some (.bool b)))) = .ok (some (.ptr e (some (.bool false))))) ∧
    (∀ i, Redact [] (some (.ptr e (some (.int i)))) = .ok (some (.ptr e (some (.int 0))))) ∧
    (∀ s, Redact [] (some (.ptr e (some (.string s)))) = .ok (some (.ptr e (some (.string ""))))) := by
  have h : ∀ x, Redact [] (some (.ptr e (some x)))
      = .ok (some (.ptr e (some (zero (typeOf x))))) := by
    intro x
    rw [Redact_ptr, redact_nil_settable]; rfl
  refine ⟨h, ?_, ?_, ?_, ?_, ?_, ?_, ?_, ?_⟩
  · intro t o; rw [h]; rfl
  · intro t o; rw [h]; rfl
  · intro t o; rw [h]; rfl
  · intro fs; rw [h, typeOf, zero, zeroFields_typeOfFields]
  · intro t xs; rw [h]; rfl
  · intro b; rw [h]; rfl
  · intro i; rw [h]; rfl
  · intro s; rw [h]; rfl

/-- C7 as stated fails for arrays: `Redact` with the empty path on a pointer to the array
`[1]string{"foo"}` leaves the array `[1]string{""}`, which has one element, not the empty
sequence. -/
theorem Redact_empty_path_array_keeps_length :
    Redact [] (some (.ptr (.array 1 .string) (some (.array .string [.string "foo"]))))
      = .ok (some (.ptr (.array 1 .string) (some (.array .string [.string ""])))) ∧
    elemsOf (.array .string [.string ""]) = some [.string ""] ∧
    [Val.string ""].length = 1 :=
  ⟨rfl, rfl, rfl⟩

/-- C8: for every path, the empty one included, and every argument that is not a pointer
(a nil interface, or a value of any kind other than pointer), `Redact` panics in
`reflect.Value.Elem` and the argument is left as it was. -/
theorem Redact_not_a_pointer (path : List String) (v : Option Val)
    (h : ∀ e o, v ≠ some (.ptr e o)) :
    Redact path v = .panicked (.valueError "reflect.Value.Elem" (v.elim .invalid kindOf)) v := by
  cases v with
  | none => rfl
  | some w =>
    cases w with
    | ptr e o => exact absurd rfl (h e o)
    | _ => rfl

/-- Witness of C8: a `user` passed by value. -/
theorem Redact_not_a_pointer_witness :
    (∀ e o, some (user "John" "letmein") ≠ some (.ptr e o)) ∧
    Redact ["Password"] (some (user "John" "letmein"))
      = .panicked (.valueError "reflect.Value.Elem"
          ((some (user "John" "letmein")).elim .invalid kindOf)) (some (user "John" "letmein")) :=
  ⟨fun _ _ h => by simp [user] at h,
    Redact_not_a_pointer ["Password"] (some (user "John" "letmein"))
      (fun _ _ h => by simp [user] at h)⟩

/-- C9: for a record `r` and a non-empty path whose first segment is not the name of a
field of `r`, `Redact` on `&r` panics, whether or not further segments follow:
`FieldByName` returns the zero Value and the next call of `redact` panics in `Type`; `r` is
left as it was.  The same holds for a record met at any depth of the walk. -/
theorem Redact_no_such_field (f : String) (rest : List String) (e : Ty)
    (fs : List (StructField Val)) (h : FieldByName f fs = none) :
    Redact (f :: rest) (some (.ptr e (some (.struct fs))))
      = .panicked (.valueError "reflect.Value.Type" .invalid) (some (.ptr e (some (.struct fs)))) ∧
    ∀ fl, redact (f :: rest) fl (.struct fs)
      = .panicked (.valueError "reflect.Value.Type" .invalid) (.struct fs) := by
  have h' : ∀ fl, redact (f :: rest) fl (.struct fs)
      = .panicked (.valueError "reflect.Value.Type" .invalid) (.struct fs) := by
    intro fl
    rw [redact_struct, redactField_none f rest fl fs h]; rfl
  exact ⟨by rw [Redact_ptr, h']; rfl, h'⟩

/-- Witness of C9: `Redact` of `Email` and of `Email.Domain` on a `user`. -/
theorem Redact_no_such_field_witness :
    FieldByName "Email" [⟨"Name", true, .string "John"⟩, ⟨"Password", true, .string "letmein"⟩]
      = none ∧
    (Redact ["Email", "Domain"] (some (.ptr userT (some (.struct
        [⟨"Name", true, .string "John"⟩, ⟨"Password", true, .string "letmein"⟩]))))
      = .panicked (.valueError "reflect.Value.Type" .invalid) (some (.ptr userT (some (.struct
        [⟨"Name", true, .string "John"⟩, ⟨"Password", true, .string "letmein"⟩])))) ∧
    ∀ fl, redact ["Email", "Domain"] fl (.struct
        [⟨"Name", true, .string "John"⟩, ⟨"Password", true, .string "letmein"⟩])
      = .panicked (.valueError "reflect.Value.Type" .invalid) (.struct
        [⟨"Name", true, .string "John"⟩, ⟨"Password", true, .string "letmein"⟩])) :=
  ⟨rfl, Redact_no_such_field "Email" ["Domain"] userT _ rfl⟩

/-- C10: for a map `m` (nil or allocated) and a path of at least two segments whose first
segment is not a key of `m`, `Redact` on `&m` panics: `MapIndex` returns the zero Value and
the next call of `redact` panics in `Type`; `m` is left as it was, no entry is inserted.
The same holds for a map met at any depth of the walk. -/
theorem Redact_no_such_key (k s : String) (rest : List String) (r e : Ty)
    (o : Option (List (String × Val))) (h : ∀ es, o = some es → MapIndex k es = none) :
    Redact (k :: s :: rest) (some (.ptr r (some (.map e o))))
      = .panicked (.valueError "reflect.Value.Type" .invalid) (some (.ptr r (some (.map e o)))) ∧
    ∀ fl, redact (k :: s :: rest) fl (.map e o)
      = .panicked (.valueError "reflect.Value.Type" .invalid) (.map e o) := by
  have h' : ∀ fl, redact (k :: s :: rest) fl (.map e o)
      = .panicked (.valueError "reflect.Value.Type" .invalid) (.map e o) := by
    intro fl
    cases o with
    | none => rw [redact_map_nil_more]; rfl
    | some es => rw [redact_map_more, redactEntry_none k (s :: rest) fl es (h es rfl)]; rfl
  exact ⟨by rw [Redact_ptr, h']; rfl, h'⟩

/-- Witness of C10: the path `c.Password` on `usersMap` of `ExampleRedact`. -/
theorem Redact_no_such_key_witness :
    (∀ es, some exampleUsersMap = some es → MapIndex "c" es = none) ∧
    (Redact ["c", "Password"] (some (.ptr (.map (.ptr userT)) (some (.map (.ptr userT)
        (some exampleUsersMap)))))
      = .panicked (.valueError "reflect.Value.Type" .invalid)
          (some (.ptr (.map (.ptr userT)) (some (.map (.ptr userT) (some exampleUsersMap))))) ∧
    ∀ fl, redact ["c", "Password"] fl (.map (.ptr userT) (some exampleUsersMap))
      = .panicked (.valueError "reflect.Value.Type" .invalid)
          (.map (.ptr userT) (some exampleUsersMap))) :=
  ⟨fun es hes => by cases hes; rfl,
    Redact_no_such_key "c" "Password" [] (.map (.ptr userT)) (.ptr userT) (some exampleUsersMap)
      (fun es hes => by cases hes; rfl)⟩

theorem keys_SetMapIndex_absent (key : String) (x : Val) (es : List (String × Val))
    (h : MapIndex key es = none) :
    (SetMapIndex key x es).map Prod.fst = es.map Prod.fst ++ [key] := by
  induction es with
  | nil => rfl
  | cons kz es ih =>
    obtain ⟨k, z⟩ := kz
    by_cases hk : k = key
    · simp [MapIndex, hk] at h
    · simp only [MapIndex, hk, if_false] at h
      simp [SetMapIndex, hk, ih h]

/-- C11: for an allocated map `m` and a key `k` that is not present in `m`,
`Redact([k], &m)` returns: `SetMapIndex` inserts `k` with the zero value of the map's
element type; afterwards the keys of `m` are the old keys followed by `k`, and the entry at
every other key is unchanged (an absent key stays absent). -/
theorem Redact_map_insert (k : String) (r e : Ty) (es : List (String × Val))
    (hk : MapIndex k es = none) :
    ∃ es', Redact [k] (some (.ptr r (some (.map e (some es)))))
        = .ok (some (.ptr r (some (.map e (some es'))))) ∧
      MapIndex k es' = some (zero e) ∧
      es'.map Prod.fst = es.map Prod.fst ++ [k] ∧
      ∀ g, g ≠ k → MapIndex g es' = MapIndex g es := by
  refine ⟨SetMapIndex k (zero e) es, ?_, MapIndex_SetMapIndex_self k _ es,
    keys_SetMapIndex_absent k _ es hk, fun g hg => MapIndex_SetMapIndex_ne k g _ es hg⟩
  rw [Redact, redact_map_last]; rfl

/-- Witness of C11: the key `c` is inserted into `usersMap` of `ExampleRedact`. -/
theorem Redact_map_insert_witness :
    MapIndex "c" exampleUsersMap = none ∧
    ∃ es', Redact ["c"] (some (.ptr (.map (.ptr userT)) (some (.map (.ptr userT)
          (some exampleUsersMap)))))
        = .ok (some (.ptr (.map (.ptr userT)) (some (.map (.ptr userT) (some es'))))) ∧
      MapIndex "c" es' = some (zero (.ptr userT)) ∧
      es'.map Prod.fst = exampleUsersMap.map Prod.fst ++ ["c"] ∧
      ∀ g, g ≠ "c" → MapIndex g es' = MapIndex g exampleUsersMap :=
  ⟨rfl, Redact_map_insert "c" (.map (.ptr userT)) (.ptr userT) exampleUsersMap rfl⟩

/-! ## Panics travel up the walk -/

theorem Res.map_eq_panicked {α β : Type} (f : α → β) (r : Res α) (e : Panic) (s : α)
    (h : r = .panicked e s) : r.map f = .panicked e (f s) := by
  subst h; rfl

/-- The loop over the elements: when the calls on the elements of `pre` return and the call
on `a` panics, the loop panics with the same value; the elements of `pre` are left
redacted, `a` as the panic left it, and `post` untouched. -/
theorem redactElems_append_panicked (seg : String) (rest : List String) (fl : Flag)
    (pre pre' : List Val) (a a' : Val) (post : List Val) (e : Panic)
    (hpre : List.Forall₂ (fun b b' => redact (seg :: rest) fl b = .ok b') pre pre')
    (ha : redact (seg :: rest) fl a = .panicked e a') :
    redactElems seg rest fl (pre ++ a :: post) = .panicked e (pre' ++ a' :: post) := by
  induction hpre with
  | nil => simp only [List.nil_append]; rw [redactElems, ha]
  | @cons b b' l l' hb _ ih =>
    simp only [List.cons_append]
    rw [redactElems, hb]
    simp only [ih, Res.map]

theorem exists_results_of_isOk (seg : String) (rest : List String) (fl : Flag) (pre : List Val)
    (h : ∀ b ∈ pre, (redact (seg :: rest) fl b).isOk = true) :
    ∃ pre', List.Forall₂ (fun b b' => redact (seg :: rest) fl b = .ok b') pre pre' := by
  induction pre with
  | nil => exact ⟨[], List.Forall₂.nil⟩
  | cons b l ih =>
    obtain ⟨l', hl'⟩ := ih (fun c hc => h c (List.mem_cons_of_mem _ hc))
    have hb := h b (List.mem_cons_self _ _)
    cases hr : redact (seg :: rest) fl b with
    | ok b' => exact ⟨b' :: l', List.Forall₂.cons hr hl'⟩
    | panicked e s => rw [hr] at hb; cases hb

/-- A panic in a called activation is the panic of the calling activation. -/
theorem panic_of_Calls {a b : Frame} (h : Calls a b) (e : Panic) (s : Val)
    (hb : redact b.path b.fl b.val = .panicked e s) :
    ∃ s', redact a.path a.fl a.val = .panicked e s' := by
  cases h with
  | field seg rest fl fs fld hf =>
    refine ⟨.struct (setField seg s fs), ?_⟩
    simp only at hb ⊢
    rw [redact_struct, redactField_some seg rest fl fs fld hf, hb]; rfl
  | entry seg s0 rest fl e0 es x hx =>
    refine ⟨.map e0 (some (SetMapIndex seg s es)), ?_⟩
    simp only at hb ⊢
    rw [redact_map_more, redactEntry_some seg (s0 :: rest) fl es x hx, hb]; rfl
  | sliceElem seg rest fl e0 pre a0 post hpre =>
    obtain ⟨pre', hpre'⟩ := exists_results_of_isOk seg rest _ pre hpre
    refine ⟨.slice e0 (some (pre' ++ s :: post)), ?_⟩
    simp only at hb ⊢
    rw [redact_slice, redactElems_append_panicked seg rest _ pre pre' a0 s post e hpre' hb]; rfl
  | arrayElem seg rest fl e0 pre a0 post hpre =>
    obtain ⟨pre', hpre'⟩ := exists_results_of_isOk seg rest _ pre hpre
    refine ⟨.array e0 (pre' ++ s :: post), ?_⟩
    simp only at hb ⊢
    rw [redact_array, redactElems_append_panicked seg rest _ pre pre' a0 s post e hpre' hb]; rfl
  | elem seg rest fl e0 x =>
    refine ⟨.ptr e0 (some s), ?_⟩
    simp only at hb ⊢
    rw [redact_ptr, hb]; rfl

/-- A panic in an activation that the walk reaches is the panic of the walk. -/
theorem panic_of_Visits {a b : Frame} (h : Visits a b) (e : Panic) (s : Val)
    (hb : redact b.path b.fl b.val = .panicked e s) :
    ∃ s', redact a.path a.fl a.val = .panicked e s' := by
  induction h using Relation.ReflTransGen.head_induction_on with
  | refl => exact ⟨s, hb⟩
  | head hac _ ih =>
    obtain ⟨s1, hs1⟩ := ih
    exact panic_of_Calls hac e s1 hs1

/-- A panic in an activation that the walk started by `Redact(path, &x)` reaches is the
panic of `Redact`. -/
theorem Redact_panicked_of_Visits (path : List String) (r : Ty) (x : Val) (b : Frame)
    (h : Visits ⟨path, ⟨true, false⟩, x⟩ b) (e : Panic) (s : Val)
    (hb : redact b.path b.fl b.val = .panicked e s) :
    ∃ s', Redact path (some (.ptr r (some x))) = .panicked e s' := by
  obtain ⟨s1, hs1⟩ := panic_of_Visits h e s hb
  exact ⟨some (.ptr r (some s1)), by rw [Redact_ptr]; simp only at hs1; rw [hs1]; rfl⟩

theorem redact_ptr_nil (seg : String) (rest : List String) (fl : Flag) (e : Ty) :
    redact (seg :: rest) fl (.ptr e none) = .panicked typeOnZeroValue (.ptr e none) := by
  rw [redact]

theorem redact_leaf (seg : String) (rest : List String) (fl : Flag) (w : Val)
    (hw : isLeaf w = true) :
    redact (seg :: rest) fl w = .panicked (.unsupportedType (typeOf w)) w := by
  cases w with
  | bool b => rw [redact]
  | int i => rw [redact]
  | string s => rw [redact]
  | chan t o => rw [redact]
  | iface o => rw [redact]
  | _ => simp [isLeaf] at hw

/-- C12, amended (the last clause holds at positions that can be set): whenever the walk
started by `Redact(path, &x)` reaches a nil pointer while segments remain, at any depth,
`Redact` panics: `Elem` returns the zero Value and the next call of `redact` panics in
`Type`; so does `Redact` on a nil pointer argument with a non-empty path.  With no segment
left a nil pointer is a target like any other: `Set` leaves it nil when the position is
addressable and not read-only, and panics otherwise; in particular `Redact([F], &x)` on a
record whose exported field `F` is a nil pointer returns and leaves `x` as it was. -/
theorem Redact_nil_pointer (path : List String) (r : Ty) (x : Val) (seg : String)
    (rest : List String) (fl : Flag) (e : Ty)
    (h : Visits ⟨path, ⟨true, false⟩, x⟩ ⟨seg :: rest, fl, .ptr e none⟩) :
    (∃ s, Redact path (some (.ptr r (some x)))
      = .panicked (.valueError "reflect.Value.Type" .invalid) s) ∧
    Redact (seg :: rest) (some (.ptr e none))
      = .panicked (.valueError "reflect.Value.Type" .invalid) (some (.ptr e none)) ∧
    (∀ fl', (redact [] fl' (.ptr e none)).isOk = (fl'.addr && !fl'.ro)) ∧
    (∀ fl', fl'.addr = true → fl'.ro = false → redact [] fl' (.ptr e none) = .ok (.ptr e none)) ∧
    (∀ F fs fld, FieldByName F fs = some fld → fld.exported = true → fld.val = .ptr e none →
      Redact [F] (some (.ptr r (some (.struct fs)))) = .ok (some (.ptr r (some (.struct fs))))) := by
  refine ⟨?_, rfl, ?_, ?_, ?_⟩
  · exact Redact_panicked_of_Visits path r x _ h _ _ (redact_ptr_nil seg rest fl e)
  · intro fl'
    rw [redact_nil, setValue]
    cases fl'.ro <;> cases fl'.addr <;> rfl
  · intro fl' ha hr
    rw [redact_nil, setValue, ha, hr]; rfl
  · intro F fs fld hF hexp hval
    rw [Redact_ptr, redact_field_exported F _ fs fld rfl rfl hF hexp, hval]
    have hz : zero (typeOf (.ptr e none)) = .ptr e none := rfl
    rw [hz, ← hval, setField_same F fs fld hF]
    rfl

/-- Witness of C12: the path `Next.Password` on a record whose field `Next` is a nil
`*user`. -/
theorem Redact_nil_pointer_witness :
    Visits ⟨["Next", "Password"], ⟨true, false⟩, .struct [⟨"Next", true, .ptr userT none⟩]⟩
      ⟨["Password"], ⟨true, false⟩, .ptr userT none⟩ ∧
    ((∃ s, Redact ["Next", "Password"]
          (some (.ptr (.struct [("Next", true, .ptr userT)])
            (some (.struct [⟨"Next", true, .ptr userT none⟩]))))
        = .panicked (.valueError "reflect.Value.Type" .invalid) s) ∧
      Redact ["Password"] (some (.ptr userT none))
        = .panicked (.valueError "reflect.Value.Type" .invalid) (some (.ptr userT none)) ∧
      (∀ fl', (redact [] fl' (.ptr userT none)).isOk = (fl'.addr && !fl'.ro)) ∧
      (∀ fl', fl'.addr = true → fl'.ro = false →
        redact [] fl' (.ptr userT none) = .ok (.ptr userT none)) ∧
      (∀ F fs fld, FieldByName F fs = some fld → fld.exported = true →
        fld.val = .ptr userT none →
        Redact [F] (some (.ptr (.struct [("Next", true, .ptr userT)]) (some (.struct fs))))
          = .ok (some (.ptr (.struct [("Next", true, .ptr userT)]) (some (.struct fs)))))) :=
  have h : Visits ⟨["Next", "Password"], ⟨true, false⟩, .struct [⟨"Next", true, .ptr userT none⟩]⟩
      ⟨["Password"], ⟨true, false⟩, .ptr userT none⟩ :=
    Relation.ReflTransGen.single
      (Calls.field "Next" ["Password"] ⟨true, false⟩ [⟨"Next", true, .ptr userT none⟩]
        ⟨"Next", true, .ptr userT none⟩ rfl)
  ⟨h, Redact_nil_pointer ["Next", "Password"] (.struct [("Next", true, .ptr userT)]) _ "Password" [] ⟨true, false⟩ userT h⟩

/-- C12 as stated fails in its last clause: in a `map[string]struct { P *user }` whose
entry `k` holds a nil `P`, the walk of `Redact(["k", "P"], &m)` reaches the nil pointer
with no segment left, and the call panics in `Set`, because the field of the copy returned
by `MapIndex` is not addressable. -/
theorem Redact_nil_pointer_target_panics :
    Visits ⟨["k", "P"], ⟨true, false⟩,
        .map (.struct [("P", true, .ptr userT)])
          (some [("k", .struct [⟨"P", true, .ptr userT none⟩])])⟩
      ⟨[], ⟨false, false⟩, .ptr userT none⟩ ∧
    Redact ["k", "P"] (some (.ptr (.map (.struct [("P", true, .ptr userT)]))
        (some (.map (.struct [("P", true, .ptr userT)])
          (some [("k", .struct [⟨"P", true, .ptr userT none⟩])])))))
      = .panicked (.notAssignable "reflect.Value.Set")
          (some (.ptr (.map (.struct [("P", true, .ptr userT)]))
            (some (.map (.struct [("P", true, .ptr userT)])
              (some [("k", .struct [⟨"P", true, .ptr userT none⟩])]))))) :=
  ⟨Relation.ReflTransGen.head
      (Calls.entry "k" "P" [] ⟨true, false⟩ (.struct [("P", true, .ptr userT)])
        [("k", .struct [⟨"P", true, .ptr userT none⟩])] (.struct [⟨"P", true, .ptr userT none⟩]) rfl)
      (Relation.ReflTransGen.single
        (Calls.field "P" [] ⟨false, false⟩ [⟨"P", true, .ptr userT none⟩]
          ⟨"P", true, .ptr userT none⟩ rfl)),
    rfl⟩

/-- The `default` branch of `redact`: for a non-empty path and a value `w` whose kind is
none of struct, map, array, slice, pointer (a bool, a number, a string, a channel, a value
of interface type), `redact` panics with "unsupported type", naming the type of `w`, and
leaves `w` as it was; so does `Redact` on `&w`; and whenever the walk started by
`Redact(path, &x)` reaches such a value while segments remain, `Redact` panics with that
value. -/
theorem Redact_unsupported_type (path : List String) (r : Ty) (x : Val) (seg : String)
    (rest : List String) (fl : Flag) (w : Val) (hleaf : isLeaf w = true)
    (h : Visits ⟨path, ⟨true, false⟩, x⟩ ⟨seg :: rest, fl, w⟩) :
    (∃ s, Redact path (some (.ptr r (some x))) = .panicked (.unsupportedType (typeOf w)) s) ∧
    redact (seg :: rest) fl w = .panicked (.unsupportedType (typeOf w)) w ∧
    Redact (seg :: rest) (some (.ptr r (some w)))
      = .panicked (.unsupportedType (typeOf w)) (some (.ptr r (some w))) := by
  refine ⟨?_, redact_leaf seg rest fl w hleaf, ?_⟩
  · exact Redact_panicked_of_Visits path r x _ h _ _ (redact_leaf seg rest fl w hleaf)
  · rw [Redact_ptr, redact_leaf seg rest _ w hleaf]; rfl

/-- The `default` branch on the path `Name.First` of a `user`, whose field `Name` is a
string. -/
theorem Redact_unsupported_type_witness :
    isLeaf (.string "John") = true ∧
    Visits ⟨["Name", "First"], ⟨true, false⟩, user "John" "letmein"⟩
      ⟨["First"], ⟨true, false⟩, .string "John"⟩ ∧
    ((∃ s, Redact ["Name", "First"] (some (.ptr userT (some (user "John" "letmein"))))
        = .panicked (.unsupportedType (typeOf (.string "John"))) s) ∧
      redact ["First"] ⟨true, false⟩ (.string "John")
        = .panicked (.unsupportedType (typeOf (.string "John"))) (.string "John") ∧
      Redact ["First"] (some (.ptr userT (some (.string "John"))))
        = .panicked (.unsupportedType (typeOf (.string "John")))
            (some (.ptr userT (some (.string "John"))))) :=
  have h : Visits ⟨["Name", "First"], ⟨true, false⟩, user "John" "letmein"⟩
      ⟨["First"], ⟨true, false⟩, .string "John"⟩ :=
    Relation.ReflTransGen.single
      (Calls.field "Name" ["First"] ⟨true, false⟩
        [⟨"Name", true, .string "John"⟩, ⟨"Password", true, .string "letmein"⟩]
        ⟨"Name", true, .string "John"⟩ rfl)
  ⟨rfl, h, Redact_unsupported_type ["Name", "First"] userT _ "First" [] ⟨true, false⟩
    (.string "John") rfl h⟩

/-- C13, at the failing inputs: a nil `[]string`, an empty `[]string` and a `[0]string`
each have depth 1, and the path `a.b` has length 2, so the value does not have the path;
yet `Redact` returns and leaves the value as it was, because the loop of `redact` over the
elements of a slice or array without elements makes no call.  The claim, and the sentence
"Panics if v does not have the given path" of the documentation of `Redact`, say that the
call fails. -/
theorem Redact_long_path_on_empty_slice_returns :
    (Val.slice .string none).depth = 1 ∧
    ["a", "b"].length = 2 ∧
    Redact ["a", "b"] (some (.ptr (.slice .string) (some (.slice .string none))))
      = .ok (some (.ptr (.slice .string) (some (.slice .string none)))) ∧
    (Val.slice .string (some [])).depth = 1 ∧
    Redact ["a", "b"] (some (.ptr (.slice .string) (some (.slice .string (some [])))))
      = .ok (some (.ptr (.slice .string) (some (.slice .string (some []))))) ∧
    (Val.array .string []).depth = 1 ∧
    Redact ["a", "b"] (some (.ptr (.array 0 .string) (some (.array .string []))))
      = .ok (some (.ptr (.array 0 .string) (some (.array .string [])))) :=
  ⟨rfl, rfl, rfl, rfl, rfl, rfl, rfl⟩

theorem Redact_ok_iff (path : List String) (t : Ty) (b b' : Val) :
    Redact path (some (.ptr t (some b))) = .ok (some (.ptr t (some b')))
      ↔ redact path ⟨true, false⟩ b = .ok b' := by
  rw [Redact_ptr]
  cases redact path ⟨true, false⟩ b <;> simp [Res.map]

theorem Redact_panicked_iff (path : List String) (t : Ty) (b b' : Val) (e : Panic) :
    Redact path (some (.ptr t (some b))) = .panicked e (some (.ptr t (some b')))
      ↔ redact path ⟨true, false⟩ b = .panicked e b' := by
  rw [Redact_ptr]
  cases redact path ⟨true, false⟩ b <;> simp [Res.map]

/-- C16: no rollback, index order.  For a non-empty path `seg :: rest` and a sequence (slice
or array) `pre ++ a :: post` such that `Redact` returns on each element of `pre`, with the
results `pre'`, and panics on `a`, leaving `a'`, `Redact` on the sequence panics with the
same value, and the state left behind is `pre' ++ a' :: post`: the elements before `a`
redacted, the elements after `a` untouched.  There are inputs on which `Redact` panics
after having changed part of the value. -/
theorem Redact_sequence_no_rollback (seg : String) (rest : List String) (r t e : Ty)
    (pre pre' : List Val) (a a' : Val) (post : List Val) (err : Panic)
    (hpre : List.Forall₂ (fun b b' => Redact (seg :: rest) (some (.ptr t (some b)))
      = .ok (some (.ptr t (some b')))) pre pre')
    (ha : Redact (seg :: rest) (some (.ptr t (some a))) = .panicked err (some (.ptr t (some a')))) :
    Redact (seg :: rest) (some (.ptr r (some (.slice e (some (pre ++ a :: post))))))
      = .panicked err (some (.ptr r (some (.slice e (some (pre' ++ a' :: post)))))) ∧
    Redact (seg :: rest) (some (.ptr r (some (.array e (pre ++ a :: post)))))
      = .panicked err (some (.ptr r (some (.array e (pre' ++ a' :: post))))) ∧
    (Redact ["Password"] (some (.ptr (.slice (.ptr userT)) (some (.slice (.ptr userT)
        (some [.ptr userT (some (user "John" "letmein")), .ptr userT none])))))
      = .panicked (.valueError "reflect.Value.Type" .invalid)
          (some (.ptr (.slice (.ptr userT)) (some (.slice (.ptr userT)
            (some [.ptr userT (some (user "John" "")), .ptr userT none]))))) ∧
      user "John" "" ≠ user "John" "letmein") := by
  have hpre1 : List.Forall₂ (fun b b' => redact (seg :: rest) ⟨true, false⟩ b = .ok b') pre pre' :=
    hpre.imp (fun b b' hb => (Redact_ok_iff (seg :: rest) t b b').1 hb)
  have ha1 := (Redact_panicked_iff (seg :: rest) t a a' err).1 ha
  have hloop := redactElems_append_panicked seg rest ⟨true, false⟩ pre pre' a a' post err hpre1 ha1
  refine ⟨?_, ?_, rfl, ?_⟩
  · rw [Redact_ptr, redact_slice, hloop]; rfl
  · rw [Redact_ptr, redact_array, hloop]; rfl
  · intro h
    simp [user] at h

/-- Witness of C16: a `[]*user` whose second element is nil; the first user is redacted,
the call panics at the second element, the third user is untouched. -/
theorem Redact_sequence_no_rollback_witness :
    List.Forall₂ (fun b b' => Redact ["Password"] (some (.ptr (.ptr userT) (some b)))
        = .ok (some (.ptr (.ptr userT) (some b'))))
      [.ptr userT (some (user "John" "letmein"))] [.ptr userT (some (user "John" ""))] ∧
    Redact ["Password"] (some (.ptr (.ptr userT) (some (.ptr userT none))))
      = .panicked (.valueError "reflect.Value.Type" .invalid)
          (some (.ptr (.ptr userT) (some (.ptr userT none)))) ∧
    Redact ["Password"] (some (.ptr (.slice (.ptr userT)) (some (.slice (.ptr userT)
        (some ([.ptr userT (some (user "John" "letmein"))]
          ++ .ptr userT none :: [.ptr userT (some (user "Mary" "123456"))]))))))
      = .panicked (.valueError "reflect.Value.Type" .invalid)
          (some (.ptr (.slice (.ptr userT)) (some (.slice (.ptr userT)
            (some ([.ptr userT (some (user "John" ""))]
              ++ .ptr userT none :: [.ptr userT (some (user "Mary" "123456"))])))))) :=
  have hpre : List.Forall₂ (fun b b' => Redact ["Password"] (some (.ptr (.ptr userT) (some b)))
        = .ok (some (.ptr (.ptr userT) (some b'))))
      [.ptr userT (some (user "John" "letmein"))] [.ptr userT (some (user "John" ""))] :=
    List.Forall₂.cons rfl List.Forall₂.nil
  ⟨hpre, rfl,
    (Redact_sequence_no_rollback "Password" [] (.slice (.ptr userT)) (.ptr userT) (.ptr userT)
      [.ptr userT (some (user "John" "letmein"))] [.ptr userT (some (user "John" ""))]
      (.ptr userT none) (.ptr userT none) [.ptr userT (some (user "Mary" "123456"))]
      (.valueError "reflect.Value.Type" .invalid) hpre rfl).1⟩

/-! ## Induction on the value -/

theorem size_le_sizeElems (a : Val) (xs : List Val) (h : a ∈ xs) : a.size ≤ sizeElems xs := by
  induction xs with
  | nil => cases h
  | cons x xs ih =>
    rw [sizeElems]
    rcases List.mem_cons.1 h with rfl | h'
    · omega
    · have := ih h'
      omega

theorem size_le_sizeFields (f : StructField Val) (fs : List (StructField Val)) (h : f ∈ fs) :
    f.val.size ≤ sizeFields fs := by
  induction fs with
  | nil => cases h
  | cons g fs ih =>
    rw [sizeFields]
    rcases List.mem_cons.1 h with rfl | h'
    · omega
    · have := ih h'
      omega

theorem size_le_sizeEntries (kx : String × Val) (es : List (String × Val)) (h : kx ∈ es) :
    kx.2.size ≤ sizeEntries es := by
  induction es with
  | nil => cases h
  | cons ky es ih =>
    obtain ⟨k, y⟩ := ky
    rw [sizeEntries]
    rcases List.mem_cons.1 h with rfl | h'
    · simp
    · have := ih h'
      omega

theorem size_lt_of_mem_children (v w : Val) (h : w ∈ children v) : w.size < v.size := by
  cases v with
  | struct fs =>
    simp only [children, List.mem_map] at h
    obtain ⟨f, hf, rfl⟩ := h
    have := size_le_sizeFields f fs hf
    rw [Val.size]; omega
  | map e o =>
    cases o with
    | none => simp [children] at h
    | some es =>
      simp only [children, List.mem_map] at h
      obtain ⟨kx, hkx, rfl⟩ := h
      have := size_le_sizeEntries kx es hkx
      rw [Val.size]; omega
  | slice e o =>
    cases o with
    | none => simp [children] at h
    | some xs =>
      simp only [children] at h
      have := size_le_sizeElems w xs h
      rw [Val.size]; omega
  | array e xs =>
    simp only [children] at h
    have := size_le_sizeElems w xs h
    rw [Val.size]; omega
  | ptr e o =>
    cases o with
    | none => simp [children] at h
    | some x =>
      simp only [children, List.mem_singleton] at h
      subst h
      rw [Val.size]; omega
  | iface o =>
    cases o with
    | none => simp [children] at h
    | some x =>
      simp only [children, List.mem_singleton] at h
      subst h
      rw [Val.size]; omega
  | bool b => simp [children] at h
  | int i => simp [children] at h
  | string s => simp [children] at h
  | chan t o => simp [children] at h

/-- Induction on a value: a property holds of every value when it holds of a value as soon
as it holds of its immediate components. -/
theorem Val.induction_on_children (P : Val → Prop)
    (h : ∀ v, (∀ w ∈ children v, P w) → P v) : ∀ v, P v := by
  have key : ∀ n, ∀ v : Val, v.size ≤ n → P v := by
    intro n
    induction n with
    | zero =>
      intro v hv
      exact h v (fun w hw => by have := size_lt_of_mem_children v w hw; omega)
    | succ n ih =>
      intro v hv
      exact h v (fun w hw => ih w (by have := size_lt_of_mem_children v w hw; omega))
  exact fun v => key v.size v (Nat.le_refl _)

theorem mem_of_FieldByName (name : String) (fs : List (StructField Val)) (fld : StructField Val)
    (h : FieldByName name fs = some fld) : fld ∈ fs := by
  induction fs with
  | nil => cases h
  | cons f fs ih =>
    unfold FieldByName at h
    split at h
    · cases h; exact List.mem_cons_self _ _
    · exact List.mem_cons_of_mem _ (ih h)

theorem mem_of_MapIndex (key : String) (es : List (String × Val)) (x : Val)
    (h : MapIndex key es = some x) : ∃ k, (k, x) ∈ es := by
  induction es with
  | nil => cases h
  | cons ky es ih =>
    obtain ⟨k, y⟩ := ky
    unfold MapIndex at h
    split at h
    · cases h; exact ⟨k, List.mem_cons_self _ _⟩
    · obtain ⟨k', hk'⟩ := ih h
      exact ⟨k', List.mem_cons_of_mem _ hk'⟩

theorem field_mem_children (name : String) (fs : List (StructField Val)) (fld : StructField Val)
    (h : FieldByName name fs = some fld) : fld.val ∈ children (.struct fs) := by
  simp only [children, List.mem_map]
  exact ⟨fld, mem_of_FieldByName name fs fld h, rfl⟩

theorem entry_mem_children (key : String) (e : Ty) (es : List (String × Val)) (x : Val)
    (h : MapIndex key es = some x) : x ∈ children (.map e (some es)) := by
  simp only [children, List.mem_map]
  obtain ⟨k, hk⟩ := mem_of_MapIndex key es x h
  exact ⟨(k, x), hk, rfl⟩

theorem redactElems_ok_iff (seg : String) (rest : List String) (fl : Flag) (xs xs' : List Val) :
    redactElems seg rest fl xs = .ok xs'
      ↔ List.Forall₂ (fun a a' => redact (seg :: rest) fl a = .ok a') xs xs' := by
  induction xs generalizing xs' with
  | nil =>
    rw [redactElems]
    constructor
    · intro h; cases h; exact List.Forall₂.nil
    · intro h; cases h; rfl
  | cons a xs ih =>
    rw [redactElems]
    cases ha : redact (seg :: rest) fl a with
    | ok a' =>
      cases hxs : redactElems seg rest fl xs with
      | ok ys =>
        simp only [Res.map, Res.ok.injEq]
        constructor
        · rintro rfl
          exact List.Forall₂.cons ha ((ih ys).1 hxs)
        · intro h
          cases h with
          | cons h1 h2 =>
            rw [ha] at h1
            cases h1
            have := (ih _).2 h2
            rw [hxs] at this
            cases this
            rfl
      | panicked e s =>
        simp only [Res.map]
        constructor
        · intro h; cases h
        · intro h
          cases h with
          | cons h1 h2 =>
            have := (ih _).2 h2
            rw [hxs] at this
            cases this
    | panicked e s =>
      simp only
      constructor
      · intro h; cases h
      · intro h
        cases h with
        | cons h1 h2 => rw [ha] at h1; cases h1

theorem redactElems_panicked (seg : String) (rest : List String) (fl : Flag) (xs s : List Val)
    (e : Panic) (h : redactElems seg rest fl xs = .panicked e s) :
    ∃ a ∈ xs, ∃ s', redact (seg :: rest) fl a = .panicked e s' := by
  induction xs generalizing s with
  | nil => rw [redactElems] at h; cases h
  | cons a xs ih =>
    rw [redactElems] at h
    cases ha : redact (seg :: rest) fl a with
    | ok a' =>
      rw [ha] at h
      cases hxs : redactElems seg rest fl xs with
      | ok ys => rw [hxs] at h; cases h
      | panicked e' s' =>
        rw [hxs] at h
        simp only [Res.map, Res.panicked.injEq] at h
        obtain ⟨rfl, _⟩ := h
        obtain ⟨b, hb, s'', hs''⟩ := ih s' hxs
        exact ⟨b, List.mem_cons_of_mem _ hb, s'', hs''⟩
    | panicked e' s' =>
      rw [ha] at h
      simp only [Res.panicked.injEq] at h
      obtain ⟨rfl, _⟩ := h
      exact ⟨a, List.mem_cons_self _ _, s', ha⟩

theorem Res.panicked_of_map {α β : Type} {f : α → β} {r : Res α} {e : Panic} {s : β}
    (h : r.map f = .panicked e s) : ∃ s0, r = .panicked e s0 ∧ s = f s0 := by
  cases r with
  | ok a => cases h
  | panicked e' a =>
    simp only [Res.map, Res.panicked.injEq] at h
    obtain ⟨rfl, rfl⟩ := h
    exact ⟨a, rfl, rfl⟩

theorem Res.ok_of_map {α β : Type} {f : α → β} {r : Res α} {s : β}
    (h : r.map f = .ok s) : ∃ s0, r = .ok s0 ∧ s = f s0 := by
  cases r with
  | ok a =>
    simp only [Res.map, Res.ok.injEq] at h
    exact ⟨a, rfl, h.symm⟩
  | panicked e' a => cases h

/-- The assignment `v.Set(x)` returns exactly when `flag.mustBeAssignable` finds no fault,
and panics with the panic of `flag.mustBeAssignable` otherwise. -/
theorem setValue_eq (fl : Flag) (v x : Val) :
    setValue fl v x
      = match mustBeAssignable fl with
        | none => .ok x
        | some _ => .panicked (.notAssignable "reflect.Value.Set") v := by
  rw [setValue, mustBeAssignable]
  cases fl.ro <;> cases fl.addr <;> rfl

/-- C14, amended (what each diagnostic holds): the panic of each failure of `Redact` is
fixed by the failure as follows, wherever in the walk started by `Redact(path, &x)` the
failure occurs.  NoSuchField (a record without the field named by the next segment),
NoSuchKey (a map without the key named by the next segment, further segments following)
and NilReference (a nil pointer, segments remaining, also as the argument itself) raise
one and the same value, the `ValueError` of `reflect.Value.Type` with kind `Invalid`.
UnsupportedType (a value of a kind that the walk does not handle, segments remaining)
raises the "unsupported type" panic of `redact`, which holds the type of that value.
Unaddressable, and likewise a `Set` refused because of an unexported field, raises the
panic of `flag.mustBeAssignable` in `Set`, whose message gives that reason.  NotAReference
(an argument that is not a pointer) raises the `ValueError` of `reflect.Value.Elem` with the
kind of the argument.  None of these values holds the path or a part of it. -/
theorem Redact_diagnostics (path : List String) (r : Ty) (x : Val) :
    (∀ (seg : String) (rest : List String) (fl : Flag) (fs : List (StructField Val)),
      Visits ⟨path, ⟨true, false⟩, x⟩ ⟨seg :: rest, fl, .struct fs⟩ →
      FieldByName seg fs = none →
      ∃ s, Redact path (some (.ptr r (some x)))
        = .panicked (.valueError "reflect.Value.Type" .invalid) s) ∧
    (∀ (seg s2 : String) (rest : List String) (fl : Flag) (e : Ty)
        (o : Option (List (String × Val))),
      Visits ⟨path, ⟨true, false⟩, x⟩ ⟨seg :: s2 :: rest, fl, .map e o⟩ →
      (∀ es, o = some es → MapIndex seg es = none) →
      ∃ s, Redact path (some (.ptr r (some x)))
        = .panicked (.valueError "reflect.Value.Type" .invalid) s) ∧
    (∀ (seg : String) (rest : List String) (fl : Flag) (e : Ty),
      Visits ⟨path, ⟨true, false⟩, x⟩ ⟨seg :: rest, fl, .ptr e none⟩ →
      ∃ s, Redact path (some (.ptr r (some x)))
        = .panicked (.valueError "reflect.Value.Type" .invalid) s) ∧
    Redact path (some (.ptr r none))
      = .panicked (.valueError "reflect.Value.Type" .invalid) (some (.ptr r none)) ∧
    (∀ (seg : String) (rest : List String) (fl : Flag) (w : Val),
      Visits ⟨path, ⟨true, false⟩, x⟩ ⟨seg :: rest, fl, w⟩ → isLeaf w = true →
      ∃ s, Redact path (some (.ptr r (some x))) = .panicked (.unsupportedType (typeOf w)) s) ∧
    (∀ (fl : Flag) (t : Val) (c : AssignFault),
      Visits ⟨path, ⟨true, false⟩, x⟩ ⟨[], fl, t⟩ → mustBeAssignable fl = some c →
      ∃ s, Redact path (some (.ptr r (some x)))
        = .panicked (.notAssignable "reflect.Value.Set") s) ∧
    (∀ v : Option Val, (∀ e o, v ≠ some (.ptr e o)) →
      Redact path v
        = .panicked (.valueError "reflect.Value.Elem" (v.elim .invalid kindOf)) v) := by
  refine ⟨?_, ?_, ?_, rfl, ?_, ?_, ?_⟩
  · intro seg rest fl fs h hf
    exact Redact_panicked_of_Visits path r x _ h _ (.struct fs)
      (by show redact (seg :: rest) fl (.struct fs) = _
          rw [redact_struct, redactField_none seg rest fl fs hf]; rfl)
  · intro seg s2 rest fl e o h hk
    refine Redact_panicked_of_Visits path r x _ h _ (.map e o) ?_
    show redact (seg :: s2 :: rest) fl (.map e o) = _
    cases o with
    | none => rw [redact_map_nil_more]; rfl
    | some es => rw [redact_map_more, redactEntry_none seg (s2 :: rest) fl es (hk es rfl)]; rfl
  · intro seg rest fl e h
    exact Redact_panicked_of_Visits path r x _ h _ _ (redact_ptr_nil seg rest fl e)
  · intro seg rest fl w h hw
    exact Redact_panicked_of_Visits path r x _ h _ _ (redact_leaf seg rest fl w hw)
  · intro fl t c h hc
    refine Redact_panicked_of_Visits path r x _ h _ t ?_
    show redact [] fl t = _
    rw [redact_nil, setValue_eq, hc]
  · intro v hv
    cases v with
    | none => rfl
    | some w =>
      cases w with
      | ptr e o => exact absurd rfl (hv e o)
      | _ => rfl

/-- Witness of C14: the missing field `Email` of a `user`, the string met by the path
`Name.First`, and a `user` passed by value. -/
theorem Redact_diagnostics_witness :
    Visits ⟨["Email"], ⟨true, false⟩, user "John" "letmein"⟩
      ⟨["Email"], ⟨true, false⟩,
        .struct [⟨"Name", true, .string "John"⟩, ⟨"Password", true, .string "letmein"⟩]⟩ ∧
    FieldByName "Email" [⟨"Name", true, .string "John"⟩, ⟨"Password", true, .string "letmein"⟩]
      = none ∧
    (∃ s, Redact ["Email"] (some (.ptr userT (some (user "John" "letmein"))))
      = .panicked (.valueError "reflect.Value.Type" .invalid) s) ∧
    Visits ⟨["Name", "First"], ⟨true, false⟩, user "John" "letmein"⟩
      ⟨["First"], ⟨true, false⟩, .string "John"⟩ ∧
    isLeaf (.string "John") = true ∧
    (∃ s, Redact ["Name", "First"] (some (.ptr userT (some (user "John" "letmein"))))
      = .panicked (.unsupportedType (typeOf (.string "John"))) s) ∧
    (∀ e o, some (user "John" "letmein") ≠ some (.ptr e o)) ∧
    Redact ["Password"] (some (user "John" "letmein"))
      = .panicked (.valueError "reflect.Value.Elem"
          ((some (user "John" "letmein")).elim .invalid kindOf)) (some (user "John" "letmein")) :=
  have h1 : Visits ⟨["Email"], ⟨true, false⟩, user "John" "letmein"⟩
      ⟨["Email"], ⟨true, false⟩,
        .struct [⟨"Name", true, .string "John"⟩, ⟨"Password", true, .string "letmein"⟩]⟩ :=
    Relation.ReflTransGen.refl
  have h2 : Visits ⟨["Name", "First"], ⟨true, false⟩, user "John" "letmein"⟩
      ⟨["First"], ⟨true, false⟩, .string "John"⟩ :=
    Relation.ReflTransGen.single
      (Calls.field "Name" ["First"] ⟨true, false⟩
        [⟨"Name", true, .string "John"⟩, ⟨"Password", true, .string "letmein"⟩]
        ⟨"Name", true, .string "John"⟩ rfl)
  ⟨h1, rfl,
    (Redact_diagnostics ["Email"] userT (user "John" "letmein")).1 "Email" [] ⟨true, false⟩
      [⟨"Name", true, .string "John"⟩, ⟨"Password", true, .string "letmein"⟩] h1 rfl,
    h2, rfl,
    (Redact_diagnostics ["Name", "First"] userT (user "John" "letmein")).2.2.2.2.1
      "First" [] ⟨true, false⟩ (.string "John") h2 rfl,
    fun _ _ h => by simp [user] at h,
    (Redact_diagnostics ["Password"] userT (user "John" "letmein")).2.2.2.2.2.2
      (some (user "John" "letmein")) (fun _ _ h => by simp [user] at h)⟩

/-- C14 as stated fails: on `usersMap` of `ExampleRedact`, the path `a.Email` fails in a
record, reached after the segment `a` was consumed, and the path `c.Email` fails in the map
itself, before any segment was consumed; both calls raise the same panic value, the
`ValueError` of `reflect.Value.Type` with kind `Invalid`, which therefore identifies
neither the segments consumed nor the kind (struct, map) that was met. -/
theorem Redact_panic_does_not_identify_failure_point :
    Visits ⟨["a", "Email"], ⟨true, false⟩, .map (.ptr userT) (some exampleUsersMap)⟩
      ⟨["Email"], ⟨true, false⟩, user "John" "letmein"⟩ ∧
    FieldByName "Email" [⟨"Name", true, .string "John"⟩, ⟨"Password", true, .string "letmein"⟩]
      = none ∧
    Redact ["a", "Email"] (some (.ptr (.map (.ptr userT)) (some (.map (.ptr userT)
        (some exampleUsersMap)))))
      = .panicked (.valueError "reflect.Value.Type" .invalid)
          (some (.ptr (.map (.ptr userT)) (some (.map (.ptr userT) (some exampleUsersMap))))) ∧
    MapIndex "c" exampleUsersMap = none ∧
    Redact ["c", "Email"] (some (.ptr (.map (.ptr userT)) (some (.map (.ptr userT)
        (some exampleUsersMap)))))
      = .panicked (.valueError "reflect.Value.Type" .invalid)
          (some (.ptr (.map (.ptr userT)) (some (.map (.ptr userT) (some exampleUsersMap))))) :=
  ⟨Relation.ReflTransGen.head
      (Calls.entry "a" "Email" [] ⟨true, false⟩ (.ptr userT) exampleUsersMap
        (.ptr userT (some (user "John" "letmein"))) rfl)
      (Relation.ReflTransGen.single
        (Calls.elem "Email" [] ⟨false, false⟩ userT (user "John" "letmein"))),
    rfl, rfl, rfl, rfl⟩

/-! ## Redacting twice -/

mutual
/-- The zero value of a type has that type. -/
theorem typeOf_zero : ∀ t : Ty, typeOf (zero t) = t
  | .bool => rfl
  | .int => rfl
  | .string => rfl
  | .chan _ => rfl
  | .iface => rfl
  | .struct fs => by rw [zero, typeOf, typeOfFields_zeroFields fs]
  | .map _ => rfl
  | .slice _ => rfl
  | .array n e => by rw [zero, typeOf, List.length_replicate]
  | .ptr _ => rfl
/-- The zero value of a struct type has the fields of that type. -/
theorem typeOfFields_zeroFields : ∀ fs : List (String × Bool × Ty),
    typeOfFields (zeroFields fs) = fs
  | [] => rfl
  | (n, x, t) :: fs => by
    rw [zeroFields, typeOfFields, typeOf_zero t, typeOfFields_zeroFields fs]
end

theorem setField_setField (name : String) (x y : Val) (fs : List (StructField Val)) :
    setField name y (setField name x fs) = setField name y fs := by
  induction fs with
  | nil => rfl
  | cons f fs ih =>
    by_cases hf : f.name = name
    · rw [setField, if_pos hf, setField, if_pos hf, setField, if_pos hf]
    · rw [setField, if_neg hf, setField, if_neg hf, ih, setField, if_neg hf]

theorem SetMapIndex_SetMapIndex (key : String) (x y : Val) (es : List (String × Val)) :
    SetMapIndex key y (SetMapIndex key x es) = SetMapIndex key y es := by
  induction es with
  | nil => simp [SetMapIndex]
  | cons kz es ih =>
    obtain ⟨k, z⟩ := kz
    by_cases hk : k = key
    · rw [SetMapIndex, if_pos hk, SetMapIndex, if_pos hk, SetMapIndex, if_pos hk]
    · rw [SetMapIndex, if_neg hk, SetMapIndex, if_neg hk, ih, SetMapIndex, if_neg hk]

theorem Forall₂_self_of_Forall₂ {P : Val → Val → Prop} (xs xs' : List Val)
    (h : List.Forall₂ P xs xs') (hstep : ∀ a ∈ xs, ∀ a', P a a' → P a' a') :
    List.Forall₂ P xs' xs' := by
  induction h with
  | nil => exact List.Forall₂.nil
  | @cons a a' l l' ha _ ih =>
    exact List.Forall₂.cons (hstep a (List.mem_cons_self _ _) a' ha)
      (ih (fun b hb => hstep b (List.mem_cons_of_mem _ hb)))

/-- When the walk returns, the walk on its result returns and changes nothing. -/
theorem redact_twice :
    ∀ (v : Val) (path : List String) (fl : Flag) (v' : Val),
      redact path fl v = .ok v' → redact path fl v' = .ok v' := by
  intro v
  induction v using Val.induction_on_children with
  | h v ih =>
    intro path fl v' h
    cases path with
    | nil =>
      rw [redact_nil, setValue] at h
      split at h
      · cases h
      · rename_i hfl
        simp only [Res.ok.injEq] at h
        subst h
        rw [redact_nil, setValue, if_neg hfl, typeOf_zero]
    | cons seg rest =>
      cases v with
      | struct fs =>
        rw [redact_struct] at h
        obtain ⟨fs', h0, rfl⟩ := Res.ok_of_map h
        cases hf : FieldByName seg fs with
        | none => rw [redactField_none seg rest fl fs hf] at h0; cases h0
        | some fld =>
          rw [redactField_some seg rest fl fs fld hf] at h0
          obtain ⟨x', h1, rfl⟩ := Res.ok_of_map h0
          have h2 := ih fld.val (field_mem_children seg fs fld hf) rest _ x' h1
          rw [redact_struct, redactField_some seg rest fl _ _
            (FieldByName_setField_self seg x' fs fld hf)]
          simp only [h2, Res.map, setField_setField]
      | map t o =>
        cases o with
        | none =>
          cases rest with
          | nil =>
            rw [redact] at h
            split at h <;> cases h
          | cons s2 rest2 => rw [redact_map_nil_more] at h; cases h
        | some es =>
          cases rest with
          | nil =>
            rw [redact_map_last] at h
            split at h
            · cases h
            · rename_i hro
              simp only [Res.ok.injEq] at h
              subst h
              rw [redact_map_last, if_neg hro, SetMapIndex_SetMapIndex]
          | cons s2 rest2 =>
            rw [redact_map_more] at h
            obtain ⟨es', h0, rfl⟩ := Res.ok_of_map h
            cases hx : MapIndex seg es with
            | none => rw [redactEntry_none seg (s2 :: rest2) fl es hx] at h0; cases h0
            | some x =>
              rw [redactEntry_some seg (s2 :: rest2) fl es x hx] at h0
              obtain ⟨x', h1, rfl⟩ := Res.ok_of_map h0
              have h2 := ih x (entry_mem_children seg t es x hx) (s2 :: rest2) _ x' h1
              rw [redact_map_more, redactEntry_some seg (s2 :: rest2) fl _ x'
                (MapIndex_SetMapIndex_self seg x' es)]
              simp only [h2, Res.map, SetMapIndex_SetMapIndex]
      | slice t o =>
        cases o with
        | none =>
          rw [redact] at h
          simp only [Res.ok.injEq] at h
          subst h
          rw [redact]
        | some xs =>
          rw [redact_slice] at h
          obtain ⟨xs', h0, rfl⟩ := Res.ok_of_map h
          have h1 := (redactElems_ok_iff seg rest _ xs xs').1 h0
          have h2 := Forall₂_self_of_Forall₂ xs xs' h1
            (fun a ha a' haa' => ih a (by simpa [children] using ha) (seg :: rest) _ a' haa')
          rw [redact_slice, (redactElems_ok_iff seg rest _ xs' xs').2 h2]
          rfl
      | array t xs =>
        rw [redact_array] at h
        obtain ⟨xs', h0, rfl⟩ := Res.ok_of_map h
        have h1 := (redactElems_ok_iff seg rest _ xs xs').1 h0
        have h2 := Forall₂_self_of_Forall₂ xs xs' h1
          (fun a ha a' haa' => ih a (by simpa [children] using ha) (seg :: rest) _ a' haa')
        rw [redact_array, (redactElems_ok_iff seg rest _ xs' xs').2 h2]
        rfl
      | ptr t o =>
        cases o with
        | none => rw [redact_ptr_nil] at h; cases h
        | some x =>
          rw [redact_ptr] at h
          obtain ⟨x', h0, rfl⟩ := Res.ok_of_map h
          have h2 := ih x (by simp [children]) (seg :: rest) _ x' h0
          rw [redact_ptr, h2]
          rfl
      | bool b => rw [redact_leaf seg rest fl (.bool b) rfl] at h; cases h
      | int i => rw [redact_leaf seg rest fl (.int i) rfl] at h; cases h
      | string str => rw [redact_leaf seg rest fl (.string str) rfl] at h; cases h
      | chan t o => rw [redact_leaf seg rest fl (.chan t o) rfl] at h; cases h
      | iface o => rw [redact_leaf seg rest fl (.iface o) rfl] at h; cases h

/-- C17: idempotence on values without aliasing (the model's trees).  For every path `p`
and every argument `v`, when `Redact(p, v)` returns and leaves `v'`, a second
`Redact(p, v')` returns as well and leaves `v'` unchanged. -/
theorem Redact_idempotent (p : List String) (v v' : Option Val)
    (h : Redact p v = .ok v') : Redact p v' = .ok v' := by
  cases v with
  | none => simp [Redact] at h
  | some w =>
    cases w with
    | ptr t o =>
      cases o with
      | none => simp [Redact] at h
      | some x =>
        rw [Redact_ptr] at h
        obtain ⟨x', h0, rfl⟩ := Res.ok_of_map h
        rw [Redact_ptr, redact_twice x p _ x' h0]
        rfl
    | _ => simp [Redact] at h

/-- Witness of C17 on the slice `users` of `ExampleRedact`. -/
theorem Redact_idempotent_witness :
    Redact ["Password"] (some (.ptr (.slice userT) (some (.slice userT (some exampleUsers)))))
      = .ok (some (.ptr (.slice userT)
          (some (.slice userT (some [user "John" "", user "Mary" ""]))))) ∧
    Redact ["Password"] (some (.ptr (.slice userT)
        (some (.slice userT (some [user "John" "", user "Mary" ""])))))
      = .ok (some (.ptr (.slice userT)
          (some (.slice userT (some [user "John" "", user "Mary" ""]))))) :=
  ⟨rfl, Redact_idempotent ["Password"]
    (some (.ptr (.slice userT) (some (.slice userT (some exampleUsers))))) _ rfl⟩

theorem Val.size_pos (v : Val) : 0 < v.size := by
  cases v with
  | iface o => cases o <;> (rw [Val.size]; omega)
  | map e o => cases o <;> (rw [Val.size]; omega)
  | slice e o => cases o <;> (rw [Val.size]; omega)
  | ptr e o => cases o <;> (rw [Val.size]; omega)
  | _ => rw [Val.size]; omega

theorem loopElems_eq (seg : String) (rest : List String) (fl : Flag)
    (f : Val → Option (Res Val)) (xs : List Val)
    (h : ∀ a ∈ xs, f a = some (redact (seg :: rest) fl a)) :
    loopElems f xs = some (redactElems seg rest fl xs) := by
  induction xs with
  | nil => rfl
  | cons a xs ih =>
    rw [loopElems, redactElems, h a (List.mem_cons_self _ _)]
    cases redact (seg :: rest) fl a with
    | ok a' =>
      simp only
      rw [ih (fun b hb => h b (List.mem_cons_of_mem _ hb))]
      rfl
    | panicked e a' => rfl

/-- With a bound of at least the size of the value, the walk written by general recursion
yields the result of `redact`. -/
theorem redactFuel_eq :
    ∀ (v : Val) (path : List String) (fl : Flag) (n : Nat), v.size ≤ n →
      redactFuel n path fl v = some (redact path fl v) := by
  intro v
  induction v using Val.induction_on_children with
  | h v ih =>
    intro path fl n hn
    cases n with
    | zero => have := Val.size_pos v; omega
    | succ n =>
      have hchild : ∀ w ∈ children v, w.size ≤ n := fun w hw => by
        have := size_lt_of_mem_children v w hw
        omega
      cases path with
      | nil => rw [redactFuel, redact_nil]
      | cons seg rest =>
        cases v with
        | struct fs =>
          rw [redactFuel, redact_struct]
          cases hf : FieldByName seg fs with
          | none => rw [redactField_none seg rest fl fs hf]; rfl
          | some fld =>
            have hm := field_mem_children seg fs fld hf
            simp only
            rw [ih fld.val hm rest _ n (hchild _ hm), redactField_some seg rest fl fs fld hf,
              Res.map_map]
            rfl
        | map t o =>
          cases o with
          | none =>
            cases rest with
            | nil =>
              rw [redactFuel, redact]
              split <;> rfl
            | cons s2 rest2 => rw [redactFuel, redact]
          | some es =>
            cases rest with
            | nil =>
              rw [redactFuel, redact_map_last]
              split <;> rfl
            | cons s2 rest2 =>
              rw [redactFuel, redact_map_more]
              cases hx : MapIndex seg es with
              | none => rw [redactEntry_none seg (s2 :: rest2) fl es hx]; rfl
              | some x =>
                have hm := entry_mem_children seg t es x hx
                simp only
                rw [ih x hm (s2 :: rest2) _ n (hchild _ hm),
                  redactEntry_some seg (s2 :: rest2) fl es x hx, Res.map_map]
                rfl
        | slice t o =>
          cases o with
          | none => rw [redactFuel, redact]
          | some xs =>
            rw [redactFuel, redact_slice,
              loopElems_eq seg rest ⟨true, fl.ro⟩ _ xs (fun a ha =>
                ih a (by simpa [children] using ha) (seg :: rest) _ n
                  (hchild a (by simpa [children] using ha)))]
            rfl
        | array t xs =>
          rw [redactFuel, redact_array,
            loopElems_eq seg rest fl _ xs (fun a ha =>
              ih a (by simpa [children] using ha) (seg :: rest) _ n
                (hchild a (by simpa [children] using ha)))]
          rfl
        | ptr t o =>
          cases o with
          | none => rw [redactFuel, redact_ptr_nil]
          | some x =>
            rw [redactFuel, redact_ptr,
              ih x (by simp [children]) (seg :: rest) _ n (hchild x (by simp [children]))]
            rfl
        | bool b => rw [redactFuel, redact]
        | int i => rw [redactFuel, redact]
        | string s => rw [redactFuel, redact]
        | chan t o => rw [redactFuel, redact]
        | iface o => rw [redactFuel, redact]

/-! ## Termination of the walk -/

/-- Every recursive call is on a strictly smaller value, with a path that is not longer. -/
theorem Calls.size_lt {a b : Frame} (h : Calls a b) :
    b.val.size < a.val.size ∧ b.path.length ≤ a.path.length := by
  cases h with
  | field seg rest fl fs fld hf =>
    exact ⟨size_lt_of_mem_children _ _ (field_mem_children seg fs fld hf), by simp⟩
  | entry seg s rest fl e es x hx =>
    exact ⟨size_lt_of_mem_children _ _ (entry_mem_children seg e es x hx), by simp⟩
  | sliceElem seg rest fl e pre a0 post hpre =>
    exact ⟨size_lt_of_mem_children _ _ (by simp [children]), Nat.le_refl _⟩
  | arrayElem seg rest fl e pre a0 post hpre =>
    exact ⟨size_lt_of_mem_children _ _ (by simp [children]), Nat.le_refl _⟩
  | elem seg rest fl e x =>
    exact ⟨size_lt_of_mem_children _ _ (by simp [children]), Nat.le_refl _⟩

/-- C18: totality.  For every path and every value (a finite tree) the walk terminates,
with a return or a panic: the walk written by general recursion as in the source yields
the result of `redact` as soon as the bound on the depth of its recursion is at least the
size of the value.  Every recursive call strictly decreases the pair (length of the
remaining path, size of the value) in the lexicographic order: struct and map steps shorten
the path, sequence and pointer steps keep the path and descend to a smaller value; hence
the relation between an activation and the activations it calls is well-founded. -/
theorem redact_terminates :
    (∀ (path : List String) (fl : Flag) (v : Val) (n : Nat), v.size ≤ n →
      redactFuel n path fl v = some (redact path fl v)) ∧
    (∀ a b : Frame, Calls a b →
      Prod.Lex (fun m n : Nat => m < n) (fun m n : Nat => m < n) b.measure a.measure) ∧
    (∀ a b : Frame, Calls a b → b.val.size < a.val.size ∧ b.path.length ≤ a.path.length) ∧
    WellFounded (fun b a : Frame => Calls a b) := by
  have hlex : ∀ a b : Frame, Calls a b →
      Prod.Lex (fun m n : Nat => m < n) (fun m n : Nat => m < n) b.measure a.measure := by
    intro a b h
    have hs := Calls.size_lt h
    cases h with
    | field seg rest fl fs fld hf => exact Prod.Lex.left _ _ (by simp)
    | entry seg s rest fl e es x hx => exact Prod.Lex.left _ _ (by simp)
    | sliceElem seg rest fl e pre a0 post hpre => exact Prod.Lex.right _ hs.1
    | arrayElem seg rest fl e pre a0 post hpre => exact Prod.Lex.right _ hs.1
    | elem seg rest fl e x => exact Prod.Lex.right _ hs.1
  refine ⟨fun path fl v n hn => redactFuel_eq v path fl n hn, hlex,
    fun a b h => Calls.size_lt h, ?_⟩
  have hwf : WellFounded (Prod.Lex (fun m n : Nat => m < n) (fun m n : Nat => m < n)) :=
    WellFounded.prod_lex Nat.lt_wfRel.wf Nat.lt_wfRel.wf
  exact Subrelation.wf (fun {b a} h => hlex a b h) (InvImage.wf Frame.measure hwf)

/-! ## Maps that hold their elements by value -/

/-- The walk with a non-empty path on a value held by value behaves as on its peeled
value: when it panics there and leaves the peeled value as it was, it panics on the value
and leaves it as it was. -/
theorem redact_of_peel (seg : String) (rest : List String) (e : Panic) :
    ∀ (v : Val) (fl : Flag) (w : Val), peel v = some w →
      redact (seg :: rest) fl w = .panicked e w →
      redact (seg :: rest) fl v = .panicked e v := by
  intro v
  induction v using Val.induction_on_children with
  | h v ih =>
    intro fl w hp hw
    cases v with
    | array t xs =>
      cases xs with
      | nil => simp [peel, peelFirst] at hp
      | cons a xs =>
        have ha : peel a = some w := by simpa [peel, peelFirst] using hp
        have h1 := ih a (by simp [children]) fl w ha hw
        rw [redact_array, redactElems, h1]
        rfl
    | bool b => simp only [peel, Option.some.injEq] at hp; subst hp; exact hw
    | int i => simp only [peel, Option.some.injEq] at hp; subst hp; exact hw
    | string s => simp only [peel, Option.some.injEq] at hp; subst hp; exact hw
    | chan t o => simp only [peel, Option.some.injEq] at hp; subst hp; exact hw
    | iface o => simp only [peel, Option.some.injEq] at hp; subst hp; exact hw
    | struct fs => simp only [peel, Option.some.injEq] at hp; subst hp; exact hw
    | map t o => simp only [peel, Option.some.injEq] at hp; subst hp; exact hw
    | slice t o => simp only [peel, Option.some.injEq] at hp; subst hp; exact hw
    | ptr t o => simp only [peel, Option.some.injEq] at hp; subst hp; exact hw

/-- Below a Value that is not addressable, a path that can be followed to its end through
exported fields of records and arrays held by value ends in a `Set` that panics; nothing is
changed. -/
theorem redact_byValueTarget (p : List String) :
    ∀ (ro : Bool) (y : Val), byValueTarget p y = true →
      redact p ⟨false, ro⟩ y = .panicked (.notAssignable "reflect.Value.Set") y := by
  induction p with
  | nil =>
    intro ro y _
    rw [redact_nil, setValue]
    simp
  | cons f rest ih =>
    intro ro y h
    rw [byValueTarget] at h
    cases hp : peel y with
    | none => rw [hp] at h; cases h
    | some w =>
      rw [hp] at h
      cases w with
      | struct fs =>
        simp only at h
        cases hf : FieldByName f fs with
        | none => rw [hf] at h; cases h
        | some fld =>
          rw [hf] at h
          have h2 : byValueTarget rest fld.val = true := by
            simp only [Bool.and_eq_true] at h
            exact h.2
          refine redact_of_peel f rest _ y _ (.struct fs) hp ?_
          rw [redact_struct, redactField_some f rest _ fs fld hf, ih _ fld.val h2]
          simp only [Res.map, setField_same f fs fld hf]
      | _ => cases h

/-- Below a Value that is not addressable, a walk that meets no pointer, slice, map or
array without elements while segments remain panics; nothing is changed. -/
theorem redact_byValueWalk (p : List String) :
    ∀ (ro : Bool) (y : Val), byValueWalk p y = true →
      ∃ e, redact p ⟨false, ro⟩ y = .panicked e y := by
  induction p with
  | nil =>
    intro ro y _
    refine ⟨.notAssignable "reflect.Value.Set", ?_⟩
    rw [redact_nil, setValue]
    simp
  | cons f rest ih =>
    intro ro y h
    rw [byValueWalk] at h
    cases hp : peel y with
    | none => rw [hp] at h; cases h
    | some w =>
      rw [hp] at h
      cases w with
      | struct fs =>
        simp only at h
        cases hf : FieldByName f fs with
        | none =>
          exact ⟨typeOnZeroValue, redact_of_peel f rest _ y _ (.struct fs) hp (by
            rw [redact_struct, redactField_none f rest _ fs hf]; rfl)⟩
        | some fld =>
          rw [hf] at h
          obtain ⟨e, he⟩ := ih (ro || !fld.exported) fld.val h
          refine ⟨e, redact_of_peel f rest _ y _ (.struct fs) hp ?_⟩
          rw [redact_struct, redactField_some f rest _ fs fld hf, he]
          simp only [Res.map, setField_same f fs fld hf]
      | bool b =>
        exact ⟨_, redact_of_peel f rest _ y _ (.bool b) hp (redact_leaf f rest _ (.bool b) rfl)⟩
      | int i =>
        exact ⟨_, redact_of_peel f rest _ y _ (.int i) hp (redact_leaf f rest _ (.int i) rfl)⟩
      | string s =>
        exact ⟨_, redact_of_peel f rest _ y _ (.string s) hp
          (redact_leaf f rest _ (.string s) rfl)⟩
      | chan t o =>
        exact ⟨_, redact_of_peel f rest _ y _ (.chan t o) hp
          (redact_leaf f rest _ (.chan t o) rfl)⟩
      | iface o =>
        exact ⟨_, redact_of_peel f rest _ y _ (.iface o) hp
          (redact_leaf f rest _ (.iface o) rfl)⟩
      | map t o => simp [isLeaf] at h
      | slice t o => simp [isLeaf] at h
      | array t xs => simp [isLeaf] at h
      | ptr t o => simp [isLeaf] at h

/-- The walk with a non-empty path on a value held by value reaches its peeled value, with
the same path and the same flags. -/
theorem Visits_of_peel (seg : String) (rest : List String) (fl : Flag) :
    ∀ (v w : Val), peel v = some w → Visits ⟨seg :: rest, fl, v⟩ ⟨seg :: rest, fl, w⟩ := by
  intro v
  induction v using Val.induction_on_children with
  | h v ih =>
    intro w hp
    cases v with
    | array t xs =>
      cases xs with
      | nil => simp [peel, peelFirst] at hp
      | cons a xs =>
        have ha : peel a = some w := by simpa [peel, peelFirst] using hp
        exact Relation.ReflTransGen.head
          (Calls.arrayElem seg rest fl t [] a xs (fun b hb => by cases hb))
          (ih a (by simp [children]) w ha)
    | bool b => simp only [peel, Option.some.injEq] at hp; subst hp; exact Relation.ReflTransGen.refl
    | int i => simp only [peel, Option.some.injEq] at hp; subst hp; exact Relation.ReflTransGen.refl
    | string s => simp only [peel, Option.some.injEq] at hp; subst hp; exact Relation.ReflTransGen.refl
    | chan t o => simp only [peel, Option.some.injEq] at hp; subst hp; exact Relation.ReflTransGen.refl
    | iface o => simp only [peel, Option.some.injEq] at hp; subst hp; exact Relation.ReflTransGen.refl
    | struct fs => simp only [peel, Option.some.injEq] at hp; subst hp; exact Relation.ReflTransGen.refl
    | map t o => simp only [peel, Option.some.injEq] at hp; subst hp; exact Relation.ReflTransGen.refl
    | slice t o => simp only [peel, Option.some.injEq] at hp; subst hp; exact Relation.ReflTransGen.refl
    | ptr t o => simp only [peel, Option.some.injEq] at hp; subst hp; exact Relation.ReflTransGen.refl

/-- Below a Value that is not addressable and not read-only, a path that can be followed to
its end through exported fields of records and arrays held by value leads the walk to a
call with no segment left on a Value that is not addressable and not read-only. -/
theorem Visits_of_byValueTarget (p : List String) :
    ∀ (y : Val), byValueTarget p y = true →
      ∃ t, Visits ⟨p, ⟨false, false⟩, y⟩ ⟨[], ⟨false, false⟩, t⟩ := by
  induction p with
  | nil => intro y _; exact ⟨y, Relation.ReflTransGen.refl⟩
  | cons f rest ih =>
    intro y h
    rw [byValueTarget] at h
    cases hp : peel y with
    | none => rw [hp] at h; cases h
    | some w =>
      rw [hp] at h
      cases w with
      | struct fs =>
        simp only at h
        cases hf : FieldByName f fs with
        | none => rw [hf] at h; cases h
        | some fld =>
          rw [hf] at h
          simp only [Bool.and_eq_true] at h
          obtain ⟨t, ht⟩ := ih fld.val h.2
          have hc := Calls.field f rest ⟨false, false⟩ fs fld hf
          simp only [h.1, Bool.not_true, Bool.or_false] at hc
          exact ⟨t, Relation.ReflTransGen.trans (Visits_of_peel f rest _ y _ hp)
            (Relation.ReflTransGen.head hc ht)⟩
      | _ => cases h

/-- C15, amended (not through a reference, a slice, a map or an array without elements): for
a map `m`, a key `k` present in `m` and a path of at least two segments starting with `k`,
`Redact` on `&m` panics and leaves `m` as it was whenever the walk from the entry of `k`,
a copy that is not addressable, meets no pointer, slice, map or array without elements
while segments remain.  Whenever the rest of the path can be followed to its end through
exported fields of records and arrays held by value, the panic is that of `Set`, and the
`Set` is on a Value that is not read-only and not addressable, for which
`flag.mustBeAssignable` has the message "using unaddressable value". -/
theorem Redact_map_by_value (k f : String) (rest : List String) (r e : Ty)
    (es : List (String × Val)) (y : Val) (hk : MapIndex k es = some y) :
    (byValueWalk (f :: rest) y = true →
      ∃ err, Redact (k :: f :: rest) (some (.ptr r (some (.map e (some es)))))
        = .panicked err (some (.ptr r (some (.map e (some es)))))) ∧
    (byValueTarget (f :: rest) y = true →
      Redact (k :: f :: rest) (some (.ptr r (some (.map e (some es)))))
        = .panicked (.notAssignable "reflect.Value.Set")
            (some (.ptr r (some (.map e (some es))))) ∧
      (∃ t, Visits ⟨k :: f :: rest, ⟨true, false⟩, .map e (some es)⟩
        ⟨[], ⟨false, false⟩, t⟩) ∧
      mustBeAssignable ⟨false, false⟩ = some .unaddressable) := by
  constructor
  · intro h
    obtain ⟨err, herr⟩ := redact_byValueWalk (f :: rest) false y h
    refine ⟨err, ?_⟩
    rw [Redact_ptr, redact_map_more, redactEntry_some k (f :: rest) _ es y hk, herr]
    simp only [Res.map, SetMapIndex_same k es y hk]
  · intro h
    refine ⟨?_, ?_, rfl⟩
    · rw [Redact_ptr, redact_map_more, redactEntry_some k (f :: rest) _ es y hk,
        redact_byValueTarget (f :: rest) false y h]
      simp only [Res.map, SetMapIndex_same k es y hk]
    · obtain ⟨t, ht⟩ := Visits_of_byValueTarget (f :: rest) y h
      exact ⟨t, Relation.ReflTransGen.head
        (Calls.entry k f rest ⟨true, false⟩ e es y hk) ht⟩

/-- Witness of C15: the path `k.Password` on a `map[string][1]user`. -/
theorem Redact_map_by_value_witness :
    MapIndex "k" [("k", .array userT [user "John" "letmein"])]
      = some (.array userT [user "John" "letmein"]) ∧
    byValueWalk ["Password"] (.array userT [user "John" "letmein"]) = true ∧
    byValueTarget ["Password"] (.array userT [user "John" "letmein"]) = true ∧
    (∃ err, Redact ["k", "Password"] (some (.ptr (.map (.array 1 userT))
        (some (.map (.array 1 userT) (some [("k", .array userT [user "John" "letmein"])])))))
      = .panicked err (some (.ptr (.map (.array 1 userT))
        (some (.map (.array 1 userT) (some [("k", .array userT [user "John" "letmein"])])))))) ∧
    (Redact ["k", "Password"] (some (.ptr (.map (.array 1 userT))
        (some (.map (.array 1 userT) (some [("k", .array userT [user "John" "letmein"])])))))
      = .panicked (.notAssignable "reflect.Value.Set") (some (.ptr (.map (.array 1 userT))
        (some (.map (.array 1 userT) (some [("k", .array userT [user "John" "letmein"])]))))) ∧
      (∃ t, Visits ⟨["k", "Password"], ⟨true, false⟩,
          .map (.array 1 userT) (some [("k", .array userT [user "John" "letmein"])])⟩
        ⟨[], ⟨false, false⟩, t⟩) ∧
      mustBeAssignable ⟨false, false⟩ = some .unaddressable) :=
  ⟨rfl, rfl, rfl,
    (Redact_map_by_value "k" "Password" [] (.map (.array 1 userT)) (.array 1 userT)
      [("k", .array userT [user "John" "letmein"])] (.array userT [user "John" "letmein"])
      rfl).1 rfl,
    (Redact_map_by_value "k" "Password" [] (.map (.array 1 userT)) (.array 1 userT)
      [("k", .array userT [user "John" "letmein"])] (.array userT [user "John" "letmein"])
      rfl).2 rfl⟩

/-- C15 as stated fails.  The element type is held by value and the key `k` is present in
each of these maps, yet: on a `map[string]struct { P *user }` the path `k.P.Password`
returns and resets the password, because the pointee of `P` is addressable; on a
`map[string][]user` the path `k.Password` returns and resets the password, because the
elements of a slice are addressable; on a `map[string]map[string]int` the path `k.j`
returns and resets the inner entry, because `SetMapIndex` needs no addressable map; on a
`map[string][0]user` the path `k.Password` returns, because the loop makes no call; on a
`map[string]string` the path `k.x` panics with "unsupported type", not in `Set`; and on a
`map[string]user` the path `k.Email` panics in `Type` on the zero Value, not in `Set`. -/
theorem Redact_map_by_value_through_pointer_returns :
    MapIndex "k" [("k", .struct [⟨"P", true, .ptr userT (some (user "John" "letmein"))⟩])]
      = some (.struct [⟨"P", true, .ptr userT (some (user "John" "letmein"))⟩]) ∧
    Redact ["k", "P", "Password"] (some (.ptr (.map (.struct [("P", true, .ptr userT)]))
        (some (.map (.struct [("P", true, .ptr userT)])
          (some [("k", .struct [⟨"P", true, .ptr userT (some (user "John" "letmein"))⟩])])))))
      = .ok (some (.ptr (.map (.struct [("P", true, .ptr userT)]))
          (some (.map (.struct [("P", true, .ptr userT)])
            (some [("k", .struct [⟨"P", true, .ptr userT (some (user "John" ""))⟩])]))))) ∧
    MapIndex "k" [("k", .slice userT (some [user "John" "letmein"]))]
      = some (.slice userT (some [user "John" "letmein"])) ∧
    Redact ["k", "Password"] (some (.ptr (.map (.slice userT))
        (some (.map (.slice userT) (some [("k", .slice userT (some [user "John" "letmein"]))])))))
      = .ok (some (.ptr (.map (.slice userT))
          (some (.map (.slice userT) (some [("k", .slice userT (some [user "John" ""]))]))))) ∧
    MapIndex "k" [("k", .map .int (some [("j", .int 1)]))]
      = some (.map .int (some [("j", .int 1)])) ∧
    Redact ["k", "j"] (some (.ptr (.map (.map .int))
        (some (.map (.map .int) (some [("k", .map .int (some [("j", .int 1)]))])))))
      = .ok (some (.ptr (.map (.map .int))
          (some (.map (.map .int) (some [("k", .map .int (some [("j", .int 0)]))]))))) ∧
    MapIndex "k" [("k", .array userT [])] = some (.array userT []) ∧
    Redact ["k", "Password"] (some (.ptr (.map (.array 0 userT))
        (some (.map (.array 0 userT) (some [("k", .array userT [])])))))
      = .ok (some (.ptr (.map (.array 0 userT))
          (some (.map (.array 0 userT) (some [("k", .array userT [])]))))) ∧
    MapIndex "k" [("k", .string "v")] = some (.string "v") ∧
    Redact ["k", "x"] (some (.ptr (.map .string)
        (some (.map .string (some [("k", .string "v")])))))
      = .panicked (.unsupportedType .string) (some (.ptr (.map .string)
          (some (.map .string (some [("k", .string "v")]))))) ∧
    MapIndex "k" [("k", user "John" "letmein")] = some (user "John" "letmein") ∧
    Redact ["k", "Email"] (some (.ptr (.map userT)
        (some (.map userT (some [("k", user "John" "letmein")])))))
      = .panicked (.valueError "reflect.Value.Type" .invalid) (some (.ptr (.map userT)
          (some (.map userT (some [("k", user "John" "letmein")]))))) :=
  ⟨rfl, rfl, rfl, rfl, rfl, rfl, rfl, rfl, rfl, rfl, rfl, rfl⟩

/-! ## Paths longer than the depth of the value -/

theorem depth_le_depthFields (name : String) (fs : List (StructField Val))
    (fld : StructField Val) (h : FieldByName name fs = some fld) :
    fld.val.depth ≤ depthFields fs := by
  induction fs with
  | nil => cases h
  | cons f fs ih =>
    rw [depthFields]
    unfold FieldByName at h
    split at h
    · cases h
      exact Nat.le_max_left _ _
    · exact Nat.le_trans (ih h) (Nat.le_max_right _ _)

theorem depth_le_depthEntries (key : String) (es : List (String × Val)) (x : Val)
    (h : MapIndex key es = some x) : x.depth ≤ depthEntries es := by
  induction es with
  | nil => cases h
  | cons ky es ih =>
    obtain ⟨k, y⟩ := ky
    rw [depthEntries]
    unfold MapIndex at h
    split at h
    · cases h
      exact Nat.le_max_left _ _
    · exact Nat.le_trans (ih h) (Nat.le_max_right _ _)

/-- A path longer than the depth of the value makes the walk panic, unless the walk meets
an array or slice without elements while segments remain. -/
theorem redact_panics_beyond_depth :
    ∀ (v : Val) (path : List String) (fl : Flag), v.depth < path.length →
      (∀ b : Frame, Visits ⟨path, fl, v⟩ b → b.path ≠ [] → elemsOf b.val ≠ some []) →
      ∃ e s, redact path fl v = .panicked e s := by
  intro v
  induction v using Val.induction_on_children with
  | h v ih =>
    intro path fl hd hno
    cases path with
    | nil => simp at hd
    | cons seg rest =>
      cases v with
      | struct fs =>
        cases hf : FieldByName seg fs with
        | none => exact ⟨_, _, by rw [redact_struct, redactField_none seg rest fl fs hf]; rfl⟩
        | some fld =>
          have hle := depth_le_depthFields seg fs fld hf
          have hd' : fld.val.depth < rest.length := by
            rw [Val.depth] at hd
            simp only [List.length_cons] at hd
            omega
          obtain ⟨e, s, hs⟩ := ih fld.val (field_mem_children seg fs fld hf) rest _ hd'
            (fun b hb => hno b (Relation.ReflTransGen.head (Calls.field seg rest fl fs fld hf) hb))
          exact ⟨e, _, by rw [redact_struct, redactField_some seg rest fl fs fld hf, hs]; rfl⟩
      | map t o =>
        cases o with
        | none =>
          cases rest with
          | nil => simp [Val.depth] at hd
          | cons s2 rest2 => exact ⟨_, _, redact_map_nil_more seg s2 rest2 fl t⟩
        | some es =>
          cases rest with
          | nil => simp [Val.depth] at hd
          | cons s2 rest2 =>
            cases hx : MapIndex seg es with
            | none =>
              exact ⟨_, _, by
                rw [redact_map_more, redactEntry_none seg (s2 :: rest2) fl es hx]; rfl⟩
            | some y =>
              have hle := depth_le_depthEntries seg es y hx
              have hd' : y.depth < (s2 :: rest2).length := by
                rw [Val.depth] at hd
                simp only [List.length_cons] at hd ⊢
                omega
              obtain ⟨e, s, hs⟩ := ih y (entry_mem_children seg t es y hx) (s2 :: rest2) _ hd'
                (fun b hb => hno b
                  (Relation.ReflTransGen.head (Calls.entry seg s2 rest2 fl t es y hx) hb))
              exact ⟨e, _, by
                rw [redact_map_more, redactEntry_some seg (s2 :: rest2) fl es y hx, hs]; rfl⟩
      | slice t o =>
        cases o with
        | none => exact absurd rfl (hno _ Relation.ReflTransGen.refl (by simp))
        | some xs =>
          cases xs with
          | nil => exact absurd rfl (hno _ Relation.ReflTransGen.refl (by simp))
          | cons a xs =>
            have hd' : a.depth < (seg :: rest).length := by
              rw [Val.depth, depthElems] at hd
              have := Nat.le_max_left a.depth (depthElems xs)
              omega
            obtain ⟨e, s, hs⟩ := ih a (by simp [children]) (seg :: rest) _ hd'
              (fun b hb => hno b (Relation.ReflTransGen.head
                (Calls.sliceElem seg rest fl t [] a xs (fun c hc => by cases hc)) hb))
            exact ⟨e, _, by rw [redact_slice, redactElems, hs]; rfl⟩
      | array t xs =>
        cases xs with
        | nil => exact absurd rfl (hno _ Relation.ReflTransGen.refl (by simp))
        | cons a xs =>
          have hd' : a.depth < (seg :: rest).length := by
            rw [Val.depth, depthElems] at hd
            have := Nat.le_max_left a.depth (depthElems xs)
            omega
          obtain ⟨e, s, hs⟩ := ih a (by simp [children]) (seg :: rest) _ hd'
            (fun b hb => hno b (Relation.ReflTransGen.head
              (Calls.arrayElem seg rest fl t [] a xs (fun c hc => by cases hc)) hb))
          exact ⟨e, _, by rw [redact_array, redactElems, hs]; rfl⟩
      | ptr t o =>
        cases o with
        | none => exact ⟨_, _, redact_ptr_nil seg rest fl t⟩
        | some y =>
          have hd' : y.depth < (seg :: rest).length := by
            rw [Val.depth] at hd
            omega
          obtain ⟨e, s, hs⟩ := ih y (by simp [children]) (seg :: rest) _ hd'
            (fun b hb => hno b (Relation.ReflTransGen.head (Calls.elem seg rest fl t y) hb))
          exact ⟨e, _, by rw [redact_ptr, hs]; rfl⟩
      | bool b => exact ⟨_, _, redact_leaf seg rest fl (.bool b) rfl⟩
      | int i => exact ⟨_, _, redact_leaf seg rest fl (.int i) rfl⟩
      | string str => exact ⟨_, _, redact_leaf seg rest fl (.string str) rfl⟩
      | chan t o => exact ⟨_, _, redact_leaf seg rest fl (.chan t o) rfl⟩
      | iface o => exact ⟨_, _, redact_leaf seg rest fl (.iface o) rfl⟩

/-- A path longer than the depth of `x` makes `Redact(path, &x)` panic, unless the walk
meets an array or slice without elements while segments remain. -/
theorem Redact_panics_beyond_depth (path : List String) (r : Ty) (x : Val)
    (hd : x.depth < path.length)
    (hno : ∀ b : Frame, Visits ⟨path, ⟨true, false⟩, x⟩ b → b.path ≠ [] →
      elemsOf b.val ≠ some []) :
    ∃ e s, Redact path (some (.ptr r (some x))) = .panicked e s := by
  obtain ⟨e, s, hs⟩ := redact_panics_beyond_depth x path ⟨true, false⟩ hd hno
  exact ⟨e, some (.ptr r (some s)), by rw [Redact_ptr, hs]; rfl⟩

end GoRedact
